import Mathlib

/-!
# Code_Executor: execution lifecycle, repository, queues, service, worker

A shallow embedding of `internal/domain/execution.go`,
`internal/repository/memory/memory.go`, `internal/queue`,
`internal/service/execution_service.go`, `internal/http/execution_handler.go`
and the job loop of `cmd/worker/main.go`, followed by the properties proved
about them.

Conventions of the embedding:

* A Go method with a pointer receiver that mutates the receiver and returns
  an `error` becomes a function returning the receiver after the call paired
  with `Option Error` (`none` is Go's `nil` error).
* A Go pointer that may be `nil` (`*int`, `*time.Time`, `*Execution`) is an
  `Option`.
* Go `int` values are only stored and compared with `0` here, never computed
  with, so they are `Int`.
* Go maps used as sets or tables are key lists / association lists read with
  membership and `List.lookup`.
* A call whose `select` may take more than one branch returns the list of its
  possible results; the empty list is a call that blocks.
-/

namespace CodeExecutor

/-! ## time.Time -/

/-- Go `time.Time` as far as the program observes it: the wall-clock instant
(nanoseconds since January 1, year 1, 00:00:00 UTC, the instant of the zero
value) and the location, where `none` is UTC. The monotonic clock reading is
left out: every time the program stores went through `UTC()`, which drops it. -/
structure Time where
  nanos : Int
  loc : Option String
deriving DecidableEq, Repr

namespace Time

/-- Go `t.IsZero()`: the instant is January 1, year 1, 00:00:00 UTC. -/
def IsZero (t : Time) : Bool := t.nanos == 0

/-- Go `t.UTC()`: same instant, location set to UTC. -/
def UTC (t : Time) : Time := { t with loc := none }

/-- Go `t.Equal(u)`: same instant, whatever the locations. -/
def Equal (t u : Time) : Bool := t.nanos == u.nanos

/-- Go `!t.After(u)`: the instant of `t` is not later than the one of `u`. -/
def NotAfter (t u : Time) : Bool := decide (t.nanos ≤ u.nanos)

end Time

/-! ## errors -/

/-- The package-level error variables created with `errors.New`, those of this
repository and the three of its libraries the code tests for: `context.Canceled`,
`context.DeadlineExceeded` and go-redis `Nil`. -/
inductive ErrVar
  | ErrInvalidExecution
  | ErrInvalidStatusTransition
  | ErrInvalidLanguageCreation
  | ErrLanguageNotFound
  | ErrExecutionNotFound
  | ErrInvalidServiceInput
  | ErrInvalidArgument
  | ErrInvalidMemoryBufferSize
  | errNilRedisClient
  | contextCanceled
  | contextDeadlineExceeded
  | redisNil
deriving DecidableEq, Repr

/-- The text given to `errors.New` for each error variable. -/
def ErrVar.text : ErrVar → String
  | .ErrInvalidExecution => "invalid execution"
  | .ErrInvalidStatusTransition => "invalid execution status transition"
  | .ErrInvalidLanguageCreation => "invalid language"
  | .ErrLanguageNotFound => "language not found"
  | .ErrExecutionNotFound => "execution not found"
  | .ErrInvalidServiceInput => "invalid execution service input"
  | .ErrInvalidArgument => "invalid argument"
  | .ErrInvalidMemoryBufferSize => "invalid memory buffer size"
  | .errNilRedisClient => "redis client is nil"
  | .contextCanceled => "context canceled"
  | .contextDeadlineExceeded => "context deadline exceeded"
  | .redisNil => "redis: nil"

/-- A Go `error` value: an error variable, the result of `fmt.Errorf` without
`%w`, the result of `fmt.Errorf` with one `%w` operand, or an error that
wraps two errors at once, as `fmt.Errorf` with two `%w` operands does. `msg`
is the formatted text. More than two wrapped errors, `errors.Join`, or an
error type whose `Is` method answers for several variables nest `wrapTwo`. -/
inductive Error
  | sentinel (v : ErrVar)
  | plain (msg : String)
  | wrap (msg : String) (inner : Error)
  | wrapTwo (msg : String) (first second : Error)
deriving DecidableEq, Repr

namespace Error

/-- Go `err.Error()`. -/
def errorText : Error → String
  | .sentinel v => v.text
  | .plain msg => msg
  | .wrap msg _ => msg
  | .wrapTwo msg _ _ => msg

/-- Go `errors.Is(err, target)` for a target that is an error variable:
search the tree of wrapped errors for the variable itself. -/
def Is : CodeExecutor.Error → ErrVar → Bool
  | .sentinel v, target => decide (v = target)
  | .plain _, _ => false
  | .wrap _ inner, target => inner.Is target
  | .wrapTwo _ first second, target => first.Is target || second.Is target

end Error

/-! ## internal/domain/execution.go -/

abbrev ExecutionStatus := String

def ExecutionStatusQueued : ExecutionStatus := "queued"
def ExecutionStatusRunning : ExecutionStatus := "running"
def ExecutionStatusCompleted : ExecutionStatus := "completed"
def ExecutionStatusFailed : ExecutionStatus := "failed"
def ExecutionStatusTimedOut : ExecutionStatus := "timed_out"

def ErrInvalidExecution : Error := .sentinel .ErrInvalidExecution
def ErrInvalidStatusTransition : Error := .sentinel .ErrInvalidStatusTransition

/-- The key set of the Go map `finalStatuses`. -/
def finalStatuses : List ExecutionStatus :=
  [ExecutionStatusCompleted, ExecutionStatusFailed, ExecutionStatusTimedOut]

/-- The Go map `statusTransitions`: status to the key set of its inner map. -/
def statusTransitions : List (ExecutionStatus × List ExecutionStatus) :=
  [ (ExecutionStatusQueued, [ExecutionStatusRunning]),
    (ExecutionStatusRunning,
      [ExecutionStatusCompleted, ExecutionStatusFailed, ExecutionStatusTimedOut]) ]

structure Execution where
  ID : String
  Language : String
  Code : String
  Stdin : String
  TimeoutMs : Int
  Status : ExecutionStatus
  Stdout : String
  Stderr : String
  ExitCode : Option Int
  CreatedAt : Time
  StartedAt : Option Time
  FinishedAt : Option Time
  UserID : String
deriving DecidableEq, Repr

def timePtr (t : Time) : Option Time :=
  let tt := t.UTC
  some tt

def intPtr (v : Int) : Option Int :=
  let val := v
  some val

def NewExecution (id language code stdin : String) (timeoutMs : Int) (userID : String)
    (createdAt : Time) : Option Execution × Option Error :=
  if id = "" ∨ language = "" ∨ code = "" ∨ userID = "" ∨ createdAt.IsZero = true then
    (none, some (.wrap (ErrInvalidExecution.errorText ++ ": missing required fields")
      ErrInvalidExecution))
  else if timeoutMs ≤ 0 then
    (none, some (.wrap (ErrInvalidExecution.errorText ++ ": timeout must be positive")
      ErrInvalidExecution))
  else
    let execution : Execution :=
      { ID := id
        Language := language
        Code := code
        Stdin := stdin
        TimeoutMs := timeoutMs
        Status := ExecutionStatusQueued
        Stdout := ""
        Stderr := ""
        ExitCode := none
        CreatedAt := createdAt.UTC
        StartedAt := none
        FinishedAt := none
        UserID := userID }
    (some execution, none)

/-- The method `(e *Execution) transition(newStatus)`: the receiver after the
call and the returned error. -/
def transition (e : Execution) (newStatus : ExecutionStatus) : Execution × Option Error :=
  if e.Status ∈ finalStatuses then
    (e, some (.wrap (ErrInvalidStatusTransition.errorText ++ ": current status " ++ e.Status
      ++ " is final") ErrInvalidStatusTransition))
  else
    match statusTransitions.lookup e.Status with
    | none =>
      (e, some (.wrap (ErrInvalidStatusTransition.errorText ++ ": no transitions defined for status "
        ++ e.Status) ErrInvalidStatusTransition))
    | some allowedNext =>
      if newStatus ∉ allowedNext then
        (e, some (.wrap (ErrInvalidStatusTransition.errorText ++ ": " ++ e.Status ++ " -> "
          ++ newStatus ++ " not allowed") ErrInvalidStatusTransition))
      else
        ({ e with Status := newStatus }, none)

def MarkRunning (e : Execution) (startedAt : Time) : Execution × Option Error :=
  if startedAt.IsZero then
    (e, some (.wrap (ErrInvalidExecution.errorText ++ ": started at time is zero")
      ErrInvalidExecution))
  else
    match transition e ExecutionStatusRunning with
    | (e, some err) => (e, some err)
    | (e, none) => ({ e with StartedAt := timePtr startedAt }, none)

def MarkCompleted (e : Execution) (stdout stderr : String) (exitCode : Int)
    (finishedAt : Time) : Execution × Option Error :=
  if finishedAt.IsZero then
    (e, some (.wrap (ErrInvalidExecution.errorText ++ ": finished at time is zero")
      ErrInvalidExecution))
  else
    match transition e ExecutionStatusCompleted with
    | (e, some err) => (e, some err)
    | (e, none) =>
      ({ e with
          Stdout := stdout
          Stderr := stderr
          ExitCode := intPtr exitCode
          FinishedAt := timePtr finishedAt }, none)

def MarkFailed (e : Execution) (stderr : String) (exitCode : Option Int)
    (finishedAt : Time) : Execution × Option Error :=
  if finishedAt.IsZero then
    (e, some (.wrap (ErrInvalidExecution.errorText ++ ": finished at time is zero")
      ErrInvalidExecution))
  else
    match transition e ExecutionStatusFailed with
    | (e, some err) => (e, some err)
    | (e, none) =>
      ({ e with
          Stderr := stderr
          ExitCode := exitCode
          FinishedAt := timePtr finishedAt }, none)

def MarkTimedOut (e : Execution) (finishedAt : Time) : Execution × Option Error :=
  if finishedAt.IsZero then
    (e, some (.wrap (ErrInvalidExecution.errorText ++ ": finished at time is zero")
      ErrInvalidExecution))
  else
    match transition e ExecutionStatusTimedOut with
    | (e, some err) => (e, some err)
    | (e, none) => ({ e with FinishedAt := timePtr finishedAt }, none)

/-! ### Calls of the four mutating methods -/

/-- One call of a mutating method of `Execution`, with its arguments. -/
inductive Call
  | markRunning (startedAt : Time)
  | markCompleted (stdout stderr : String) (exitCode : Int) (finishedAt : Time)
  | markFailed (stderr : String) (exitCode : Option Int) (finishedAt : Time)
  | markTimedOut (finishedAt : Time)
deriving DecidableEq, Repr

namespace Call

/-- Perform the call on `e`. -/
def run : Call → Execution → Execution × Option Error
  | .markRunning t, e => MarkRunning e t
  | .markCompleted out err code t, e => MarkCompleted e out err code t
  | .markFailed err code t, e => MarkFailed e err code t
  | .markTimedOut t, e => MarkTimedOut e t

/-- The status the method passes to `transition`. -/
def target : Call → ExecutionStatus
  | .markRunning _ => ExecutionStatusRunning
  | .markCompleted _ _ _ _ => ExecutionStatusCompleted
  | .markFailed _ _ _ => ExecutionStatusFailed
  | .markTimedOut _ => ExecutionStatusTimedOut

/-- The timestamp argument of the call. -/
def time : Call → Time
  | .markRunning t => t
  | .markCompleted _ _ _ t => t
  | .markFailed _ _ t => t
  | .markTimedOut t => t

end Call

/-- The receiver after a sequence of calls made one after another, failed
calls included. -/
def runCalls (e : Execution) (calls : List Call) : Execution :=
  calls.foldl (fun acc c => (c.run acc).1) e

/-- The allowed transitions as the specification lists them:
queued to running, running to completed, failed or timed_out. -/
def allowedPairs : List (ExecutionStatus × ExecutionStatus) :=
  [ (ExecutionStatusQueued, ExecutionStatusRunning),
    (ExecutionStatusRunning, ExecutionStatusCompleted),
    (ExecutionStatusRunning, ExecutionStatusFailed),
    (ExecutionStatusRunning, ExecutionStatusTimedOut) ]

/-- The five named statuses. -/
def allStatuses : List ExecutionStatus :=
  [ExecutionStatusQueued, ExecutionStatusRunning, ExecutionStatusCompleted,
    ExecutionStatusFailed, ExecutionStatusTimedOut]

/-- The error `r` is present and `errors.Is(r, v)` holds. -/
def failsWith (r : Option Error) (v : ErrVar) : Bool :=
  match r with
  | some err => err.Is v
  | none => false

/-- The timestamps that are set are ordered: createdAt, then startedAt, then
finishedAt, compared as instants. -/
def timestampsOrdered (e : Execution) : Bool :=
  (match e.StartedAt with
    | some s => e.CreatedAt.NotAfter s
    | none => true) &&
  (match e.StartedAt, e.FinishedAt with
    | some s, some f => s.NotAfter f
    | _, _ => true) &&
  (match e.FinishedAt with
    | some f => e.CreatedAt.NotAfter f
    | none => true)

/-- Every call of the sequence that succeeds carries a timestamp that is not
earlier than createdAt nor than the startedAt set at that moment. Calls that
fail may carry any timestamp. -/
def callsOrdered : Execution → List Call → Bool
  | _, [] => true
  | e, c :: cs =>
    (if (c.run e).2 = none then
        e.CreatedAt.NotAfter c.time &&
          (match e.StartedAt with
            | some s => s.NotAfter c.time
            | none => true)
      else true) &&
    callsOrdered (c.run e).1 cs

/-- The statuses an execution shows, in order, while a sequence of calls is
made on it: the status it starts with, then the status after each call that
succeeds. -/
def visited : Execution → List Call → List ExecutionStatus
  | e, [] => [e.Status]
  | e, c :: cs =>
    if (c.run e).2 = none then e.Status :: visited (c.run e).1 cs
    else visited (c.run e).1 cs

/-- Which optional fields are present in which status. -/
def StatusFieldsInv (e : Execution) : Prop :=
  (e.Status = ExecutionStatusQueued →
    e.StartedAt = none ∧ e.FinishedAt = none ∧ e.ExitCode = none) ∧
  (e.Status = ExecutionStatusRunning →
    e.StartedAt.isSome = true ∧ e.FinishedAt = none ∧ e.ExitCode = none) ∧
  (e.Status = ExecutionStatusCompleted →
    e.StartedAt.isSome = true ∧ e.FinishedAt.isSome = true ∧ e.ExitCode.isSome = true) ∧
  (e.Status = ExecutionStatusFailed →
    e.StartedAt.isSome = true ∧ e.FinishedAt.isSome = true) ∧
  (e.Status = ExecutionStatusTimedOut →
    e.StartedAt.isSome = true ∧ e.FinishedAt.isSome = true ∧ e.ExitCode = none)

instance (e : Execution) : Decidable (StatusFieldsInv e) := by
  unfold StatusFieldsInv
  infer_instance

/-! ## internal/repository -/

def ErrExecutionNotFound : Error := .sentinel .ErrExecutionNotFound

/-- The Go map write `m[k] = v` on an association list: replace the entry of
`k` if there is one, add it otherwise. -/
def mapSet {α : Type} : List (String × α) → String → α → List (String × α)
  | [], k, v => [(k, v)]
  | (k', v') :: m, k, v => if k' = k then (k, v) :: m else (k', v') :: mapSet m k v

namespace memory

/-- The in-memory repository. `store` is the Go `map[string]*domain.Execution`;
the mutex is left out, the calls are taken one at a time. -/
structure ExecutionRepository where
  store : List (String × Option Execution)
deriving DecidableEq, Repr

def NewExecutionRepository : ExecutionRepository :=
  { store := [] }

def cloneExecution (src : Option Execution) : Option Execution :=
  match src with
  | none => none
  | some src =>
    let clone := src
    let clone :=
      match src.ExitCode with
      | some exitCode => { clone with ExitCode := some exitCode }
      | none => clone
    let clone :=
      match src.StartedAt with
      | some startedAt => { clone with StartedAt := some startedAt }
      | none => clone
    let clone :=
      match src.FinishedAt with
      | some finishedAt => { clone with FinishedAt := some finishedAt }
      | none => clone
    some clone

namespace ExecutionRepository

def CreateExecution (r : ExecutionRepository) (exec : Option Execution) :
    ExecutionRepository × Option Error :=
  match exec with
  | none => (r, some (.plain "execution is nil"))
  | some e =>
    if (r.store.lookup e.ID).isSome then
      (r, some (.plain ("execution with id " ++ e.ID ++ " already exists")))
    else
      ({ r with store := mapSet r.store e.ID (cloneExecution exec) }, none)

def UpdateExecution (r : ExecutionRepository) (exec : Option Execution) :
    ExecutionRepository × Option Error :=
  match exec with
  | none => (r, some (.plain "execution is nil"))
  | some e =>
    if !(r.store.lookup e.ID).isSome then
      (r, some ErrExecutionNotFound)
    else
      ({ r with store := mapSet r.store e.ID (cloneExecution exec) }, none)

def GetExecutionByID (r : ExecutionRepository) (id : String) :
    Option Execution × Option Error :=
  match r.store.lookup id with
  | none => (none, some ErrExecutionNotFound)
  | some exec => (cloneExecution exec, none)

end ExecutionRepository

end memory

/-! ## context.Context -/

/-- A `context.Context` as one call observes it: `err` is `ctx.Err()`, nil
until the context is cancelled or its deadline passes. The value is a
snapshot, the context does not change while the call runs. -/
structure Context where
  err : Option Error
deriving DecidableEq, Repr

namespace Context

/-- Whether a receive from `ctx.Done()` can proceed. -/
def Done (ctx : Context) : Bool := ctx.err.isSome

/-- Go `context.Background()`: never cancelled. -/
def Background : Context := { err := none }

/-- Go `context.WithTimeout(ctx, d)` at the moment it is made: done exactly
when the parent is. -/
def WithTimeout (ctx : Context) (_timeout : Int) : Context := ctx

end Context

/-! ## internal/queue/queue.go -/

namespace queue

structure Job where
  ExecutionID : String
  Language : String
  UserID : String
deriving DecidableEq, Repr

/-- The interface `Producer` over a queue state `Q`: the possible results of
`Enqueue(ctx, job)`, each the queue after the call and the returned error. -/
structure Producer (Q : Type) where
  Enqueue : Q → Context → Job → List (Q × Option Error)

end queue

/-! ## internal/queue/memory/memory.go -/

namespace queuememory

def ErrInvalidMemoryBufferSize : Error := .sentinel .ErrInvalidMemoryBufferSize

/-- The struct `InMemoryQueue`. Its channel `ch` is the jobs sent and not yet
received, oldest first, and the buffer size given to `make`. -/
structure InMemoryQueue where
  ch : List queue.Job
  cap : Nat
deriving DecidableEq, Repr

def NewInMemoryQueue (buffer : Int) : Option InMemoryQueue × Option Error :=
  if buffer ≤ 0 then
    (none, some ErrInvalidMemoryBufferSize)
  else
    (some { ch := [], cap := buffer.toNat }, none)

namespace InMemoryQueue

/-- The method `Enqueue`. After the id check the `select` has two cases: the
receive from `ctx.Done()`, ready when the context is done, and the send on
`q.ch`, ready when the buffer has room. Go runs any one of the ready cases;
with none ready the call blocks. -/
def Enqueue (q : InMemoryQueue) (ctx : Context) (job : queue.Job) :
    List (InMemoryQueue × Option Error) :=
  if job.ExecutionID = "" then
    [(q, some (.plain "execution id is empty"))]
  else
    (if ctx.Done then [(q, ctx.err)] else []) ++
    (if q.ch.length < q.cap then [({ q with ch := q.ch ++ [job] }, none)] else [])

/-- The goroutine started by `Consume`, run for at most `fuel` turns of its
`for` loop with no producer running beside it: the possible results, each
the queue, the jobs handed over on `out` so far (appended to `out`) and
whether the goroutine has returned and closed `out`. A receiver is taken to
be waiting on `out`. With nothing to receive and the context not done the
goroutine waits. `q.ch` is never closed in this package. -/
def consumeLoop (ctx : Context) :
    Nat → InMemoryQueue → List queue.Job → List (InMemoryQueue × List queue.Job × Bool)
  | 0, q, out => [(q, out, false)]
  | fuel + 1, q, out =>
    (if ctx.Done then [(q, out, true)] else []) ++
    (match q.ch with
      | [] => if ctx.Done then [] else [(q, out, false)]
      | job :: rest =>
        (if ctx.Done then [({ q with ch := rest }, out, true)] else []) ++
        consumeLoop ctx fuel { q with ch := rest } (out ++ [job]))

/-- The queue as an implementation of `queue.Producer`. -/
def asProducer : queue.Producer InMemoryQueue :=
  { Enqueue := Enqueue }

end InMemoryQueue

end queuememory

/-! ## internal/queue/redis/redis.go -/

namespace redisqueue

def executionsListKey : String := "queue:executions"

def errNilRedisClient : Error := .sentinel .errNilRedisClient

structure jobPayload where
  ExecutionID : String
  Language : String
  UserID : String
deriving DecidableEq, Repr

/-- The two `encoding/json` calls the package makes on `jobPayload`, taken as
given: `Marshal` returns the bytes and an error, `Unmarshal` the payload it
filled and an error. -/
structure JSON where
  Marshal : jobPayload → String × Option Error
  Unmarshal : String → jobPayload × Option Error

/-- The two go-redis commands the package uses, over a server state `S`:
`LPush(ctx, key, value).Err()` and `BRPop(ctx, timeout, key).Result()`, each
with the server state after the command. -/
structure Client (S : Type) where
  LPush : S → Context → String → String → S × Option Error
  BRPop : S → Context → Int → String → S × List String × Option Error

structure producer (S : Type) where
  client : Client S
  key : String

structure consumer (S : Type) where
  client : Client S
  key : String
  popTimeout : Int

def normalizeQueueKey (key : String) : String :=
  if key = "" then executionsListKey else key

/-- One second as a `time.Duration`, in nanoseconds. -/
def Second : Int := 1000000000

def NewProducer {S : Type} (redisClient : Option (Client S)) (key : String) :
    Option (producer S) × Option Error :=
  match redisClient with
  | none => (none, some errNilRedisClient)
  | some client => (some { client := client, key := normalizeQueueKey key }, none)

def NewConsumer {S : Type} (redisClient : Option (Client S)) (key : String) (popTimeout : Int) :
    Option (consumer S) × Option Error :=
  match redisClient with
  | none => (none, some errNilRedisClient)
  | some client =>
    let popTimeout := if popTimeout ≤ 0 then 5 * Second else popTimeout
    (some { client := client, key := normalizeQueueKey key, popTimeout := popTimeout }, none)

namespace producer

/-- The method `Enqueue`: the server state after the call and the returned
error. -/
def Enqueue {S : Type} (json : JSON) (p : producer S) (s : S) (ctx : Context)
    (job : queue.Job) : S × Option Error :=
  if job.ExecutionID = "" then
    (s, some (.plain "execution id is required"))
  else
    let payload : jobPayload :=
      { ExecutionID := job.ExecutionID
        Language := job.Language
        UserID := job.UserID }
    match json.Marshal payload with
    | (_, some err) => (s, some (.wrap ("marshal job: " ++ err.errorText) err))
    | (data, none) =>
      match p.client.LPush s ctx p.key data with
      | (s, some err) => (s, some (.wrap ("redis lpush: " ++ err.errorText) err))
      | (s, none) => (s, none)

/-- The producer as an implementation of `queue.Producer`. -/
def asProducer {S : Type} (json : JSON) (p : producer S) : queue.Producer S :=
  { Enqueue := fun s ctx job => [Enqueue json p s ctx job] }

end producer

namespace consumer

/-- The goroutine started by `Consume`, run for at most `fuel` turns of its
`for` loop: the server state, the jobs handed over on `out` so far (appended
to `out`) and whether the goroutine has returned and closed `out`. A receiver
is taken to be waiting on `out`; the context was seen not done at the top of
the turn, so the final `select` sends. -/
def consumeLoop {S : Type} (json : JSON) (c : consumer S) (ctx : Context) :
    Nat → S → List queue.Job → S × List queue.Job × Bool
  | 0, s, out => (s, out, false)
  | fuel + 1, s, out =>
    if ctx.err ≠ none then
      (s, out, true)
    else
      let brCtx := ctx.WithTimeout c.popTimeout
      match c.client.BRPop s brCtx c.popTimeout c.key with
      | (s, _, some _) => consumeLoop json c ctx fuel s out
      | (s, result, none) =>
        if result.length ≠ 2 then
          consumeLoop json c ctx fuel s out
        else
          match json.Unmarshal (result.getD 1 "") with
          | (_, some _) => consumeLoop json c ctx fuel s out
          | (payload, none) =>
            let job : queue.Job :=
              { ExecutionID := payload.ExecutionID
                Language := payload.Language
                UserID := payload.UserID }
            consumeLoop json c ctx fuel s (out ++ [job])

end consumer

/-- The Redis commands on lists held by one server, without faults: the state
maps a key to its list, head first. LPUSH puts the value at the head and
returns no error. BRPOP takes the value at the tail and returns the key and
the value; on a list that stays empty until the timeout it returns the error
`Nil`. -/
def listClient : Client (List (String × List String)) :=
  { LPush := fun s _ key value => (mapSet s key (value :: (s.lookup key).getD []), none)
    BRPop := fun s _ _ key =>
      match ((s.lookup key).getD []).getLast? with
      | none => (s, [], some (.sentinel .redisNil))
      | some value => (mapSet s key ((s.lookup key).getD []).dropLast, [key, value], none) }

end redisqueue

/-! ## internal/service/execution_service.go -/

/-- What stands for the run-time panic of a method called on a nil
`*Execution`. The in-memory repository never returns a nil execution with a
nil error: it stores only clones of non-nil executions. -/
def nilDereference : Error :=
  .plain "runtime error: invalid memory address or nil pointer dereference"

namespace service

def ErrInvalidServiceInput : Error := .sentinel .ErrInvalidServiceInput

/-- The struct `executionService` without its repository: the repository is
the in-memory one and its state is passed to each method, as is the state of
the queue behind `producer`. -/
structure executionService (Q : Type) where
  producer : queue.Producer Q
  idGenerator : Unit → String × Option Error
  now : Unit → Time

structure CreateExecutionParams where
  Language : String
  Code : String
  Stdin : String
  TimeoutMs : Int
  UserID : String
deriving DecidableEq, Repr

structure CompleteExecutionResult where
  Stdout : String
  Stderr : String
  ExitCode : Int
  FinishedAt : Time
deriving DecidableEq, Repr

structure FailExecutionResult where
  Stderr : String
  ExitCode : Option Int
  FinishedAt : Time
deriving DecidableEq, Repr

/-- The method `CreateExecutionAndEnqueue`: the possible results, each the
repository and the queue after the call, the returned execution and the
returned error. There is more than one only where `Enqueue` has more than
one. -/
def CreateExecutionAndEnqueue {Q : Type} (s : executionService Q)
    (repo : memory.ExecutionRepository) (q : Q) (ctx : Context)
    (params : CreateExecutionParams) :
    List (memory.ExecutionRepository × Q × Option Execution × Option Error) :=
  if params.UserID = "" then
    [(repo, q, none,
      some (.wrap (ErrInvalidServiceInput.errorText ++ ": user id is required")
        ErrInvalidServiceInput))]
  else
    match s.idGenerator () with
    | (_, some err) =>
      [(repo, q, none, some (.wrap ("generate execution id: " ++ err.errorText) err))]
    | (execID, none) =>
      match NewExecution execID params.Language params.Code params.Stdin params.TimeoutMs
          params.UserID (s.now ()) with
      | (_, some err) => [(repo, q, none, some err)]
      | (exec, none) =>
        match repo.CreateExecution exec with
        | (repo, some err) => [(repo, q, none, some err)]
        | (repo, none) =>
          match exec with
          | none => [(repo, q, none, some nilDereference)]
          | some exec =>
            let job : queue.Job :=
              { ExecutionID := exec.ID
                Language := exec.Language
                UserID := exec.UserID }
            (s.producer.Enqueue q ctx job).map fun
              | (q, some err) => (repo, q, none, some err)
              | (q, none) => (repo, q, some exec, none)

def GetExecution (repo : memory.ExecutionRepository) (id : String) :
    Option Execution × Option Error :=
  if id = "" then
    (none, some (.wrap (ErrInvalidServiceInput.errorText ++ ": execution id is required")
      ErrInvalidServiceInput))
  else
    repo.GetExecutionByID id

/-- The method `MarkExecutionCompleted`: the repository after the call, the
returned execution and the returned error. -/
def MarkExecutionCompleted (repo : memory.ExecutionRepository) (id : String)
    (result : CompleteExecutionResult) :
    memory.ExecutionRepository × Option Execution × Option Error :=
  if result.FinishedAt.IsZero then
    (repo, none, some (.wrap (ErrInvalidServiceInput.errorText ++ ": finished at is required")
      ErrInvalidServiceInput))
  else
    match repo.GetExecutionByID id with
    | (_, some err) => (repo, none, some err)
    | (none, none) => (repo, none, some nilDereference)
    | (some exec, none) =>
      match MarkCompleted exec result.Stdout result.Stderr result.ExitCode result.FinishedAt with
      | (_, some err) => (repo, none, some err)
      | (exec, none) =>
        match repo.UpdateExecution (some exec) with
        | (repo, some err) => (repo, none, some err)
        | (repo, none) => (repo, some exec, none)

def MarkExecutionFailed (repo : memory.ExecutionRepository) (id : String)
    (result : FailExecutionResult) :
    memory.ExecutionRepository × Option Execution × Option Error :=
  if result.FinishedAt.IsZero then
    (repo, none, some (.wrap (ErrInvalidServiceInput.errorText ++ ": finished at is required")
      ErrInvalidServiceInput))
  else
    match repo.GetExecutionByID id with
    | (_, some err) => (repo, none, some err)
    | (none, none) => (repo, none, some nilDereference)
    | (some exec, none) =>
      match MarkFailed exec result.Stderr result.ExitCode result.FinishedAt with
      | (_, some err) => (repo, none, some err)
      | (exec, none) =>
        match repo.UpdateExecution (some exec) with
        | (repo, some err) => (repo, none, some err)
        | (repo, none) => (repo, some exec, none)

def MarkExecutionTimedOut (repo : memory.ExecutionRepository) (id : String)
    (finishedAt : Time) :
    memory.ExecutionRepository × Option Execution × Option Error :=
  if finishedAt.IsZero then
    (repo, none, some (.wrap (ErrInvalidServiceInput.errorText ++ ": finished at is required")
      ErrInvalidServiceInput))
  else
    match repo.GetExecutionByID id with
    | (_, some err) => (repo, none, some err)
    | (none, none) => (repo, none, some nilDereference)
    | (some exec, none) =>
      match MarkTimedOut exec finishedAt with
      | (_, some err) => (repo, none, some err)
      | (exec, none) =>
        match repo.UpdateExecution (some exec) with
        | (repo, some err) => (repo, none, some err)
        | (repo, none) => (repo, some exec, none)

end service

/-! ## internal/http/execution_handler.go -/

namespace http

def ErrInvalidArgument : Error := .sentinel .ErrInvalidArgument

def StatusBadRequest : Nat := 400
def StatusNotFound : Nat := 404
def StatusInternalServerError : Nat := 500

structure errorResponse where
  Error : String
deriving DecidableEq, Repr

/-- What a handler wrote to the `http.ResponseWriter`: the status code and
the payload encoded as the body. -/
structure Response where
  status : Nat
  payload : errorResponse
deriving DecidableEq, Repr

/-- The function `writeJSON` on an `errorResponse`, which `json.Marshal`
always encodes. -/
def writeJSON (status : Nat) (payload : errorResponse) : Response :=
  { status := status, payload := payload }

def writeError (status : Nat) (message : String) : Response :=
  writeJSON status { Error := message }

def writeServiceError (err : Error) : Response :=
  let status := StatusInternalServerError
  let message := "internal server error"
  let (status, message) :=
    if err.Is .ErrInvalidArgument then (StatusBadRequest, err.errorText)
    else if err.Is .ErrInvalidServiceInput then (StatusBadRequest, err.errorText)
    else if err.Is .ErrInvalidExecution then (StatusBadRequest, err.errorText)
    else if err.Is .ErrExecutionNotFound then (StatusNotFound, err.errorText)
    else (status, message)
  writeError status message

end http

/-! ## cmd/worker/main.go -/

namespace worker

/-- What the job loop of `main` works on: the repository (the loop uses only
the three methods of `repository.ExecutionRepository`; it is run here on the
in-memory implementation), the number of `time.Now()` calls made so far, and
the lines printed. -/
structure State where
  repo : memory.ExecutionRepository
  clock : Nat
  printed : List String
deriving DecidableEq, Repr

/-- The first half of the loop body for one job: load the execution, mark it
running, persist it. The result is the state after it and either the value
passed to `panic` or the execution in hand. `now n` is what the call number
`n` of `time.Now()` returns. -/
def startJob (now : Nat → Time) (st : State) (job : queue.Job) :
    State × Except Error Execution :=
  match st.repo.GetExecutionByID job.ExecutionID with
  | (_, some err) => (st, .error err)
  | (exec, none) =>
    let startedAt := now st.clock
    let st := { st with clock := st.clock + 1 }
    match exec with
    | none => (st, .error nilDereference)
    | some exec =>
      match MarkRunning exec startedAt with
      | (_, some err) => (st, .error err)
      | (exec, none) =>
        match st.repo.UpdateExecution (some exec) with
        | (_, some err) => (st, .error err)
        | (repo, none) => ({ st with repo := repo }, .ok exec)

/-- The second half of the loop body: print, build the output, mark the
execution completed, persist it, print. The result is the state after it and
the value passed to `panic`, if any. -/
def finishJob (now : Nat → Time) (st : State) (job : queue.Job) (exec : Execution) :
    State × Option Error :=
  let st := { st with printed := st.printed ++ ["⚙️ Processing job " ++ job.ExecutionID ++ "\n"] }
  let stdout := "Fake output for " ++ exec.Language ++ " code"
  let finishedAt := now st.clock
  let st := { st with clock := st.clock + 1 }
  match MarkCompleted exec stdout "" 0 finishedAt with
  | (_, some err) => (st, some err)
  | (exec, none) =>
    match st.repo.UpdateExecution (some exec) with
    | (_, some err) => (st, some err)
    | (repo, none) =>
      ({ st with
          repo := repo
          printed := st.printed ++ ["✅ Completed job " ++ job.ExecutionID ++ "\n"] }, none)

/-- The loop body for one job: the state after it and the value passed to
`panic`, if any. -/
def handleJob (now : Nat → Time) (st : State) (job : queue.Job) : State × Option Error :=
  match startJob now st job with
  | (st, .error err) => (st, some err)
  | (st, .ok exec) => finishJob now st job exec

/-- The loop `for job := range jobs` over the jobs the channel delivers: a
panic ends the process, so the jobs after it are not handled. -/
def run (now : Nat → Time) : State → List queue.Job → State × Option Error
  | st, [] => (st, none)
  | st, job :: rest =>
    match handleJob now st job with
    | (st, some err) => (st, some err)
    | (st, none) => run now st rest

end worker

/-- One call of a terminal operation of the service, with its result
argument. -/
inductive service.MarkOp
  | completed (result : service.CompleteExecutionResult)
  | failed (result : service.FailExecutionResult)
  | timedOut (finishedAt : Time)
deriving DecidableEq, Repr

namespace service.MarkOp

/-- Perform the operation on the repository for the execution `id`. -/
def run : MarkOp → memory.ExecutionRepository → String →
    memory.ExecutionRepository × Option Execution × Option Error
  | .completed result, repo, id => MarkExecutionCompleted repo id result
  | .failed result, repo, id => MarkExecutionFailed repo id result
  | .timedOut finishedAt, repo, id => MarkExecutionTimedOut repo id finishedAt

/-- The finished-at timestamp the operation carries. -/
def finishedAt : MarkOp → Time
  | .completed result => result.FinishedAt
  | .failed result => result.FinishedAt
  | .timedOut finishedAt => finishedAt

/-- The method of `Execution` the operation calls on the loaded copy. -/
def call : MarkOp → Call
  | .completed result =>
    .markCompleted result.Stdout result.Stderr result.ExitCode result.FinishedAt
  | .failed result => .markFailed result.Stderr result.ExitCode result.FinishedAt
  | .timedOut finishedAt => .markTimedOut finishedAt

end service.MarkOp

/-- A single producer calling `Enqueue` for each job of a sequence, one call
after the other: the possible results, each the queue at the end and the
errors returned, in call order. -/
def queue.enqueueAll {Q : Type} (p : queue.Producer Q) (ctx : Context) :
    Q → List queue.Job → List (Q × List (Option Error))
  | q, [] => [(q, [])]
  | q, job :: rest =>
    (p.Enqueue q ctx job).flatMap fun r =>
      (queue.enqueueAll p ctx r.1 rest).map fun rs => (rs.1, r.2 :: rs.2)

/-- The payload `Enqueue` builds from a job. -/
def redisqueue.payloadOf (job : queue.Job) : redisqueue.jobPayload :=
  { ExecutionID := job.ExecutionID
    Language := job.Language
    UserID := job.UserID }

/-! ## Further definitions for the consumer loop and the create handler -/

/-- The method `Consume` of the Redis consumer: what its goroutine did in at
most `fuel` turns, and the error `Consume` returns, which is always nil. -/
def redisqueue.consumer.Consume {S : Type} (json : redisqueue.JSON)
    (c : redisqueue.consumer S) (ctx : Context) (fuel : Nat) (s : S) :
    (S × List queue.Job × Bool) × Option Error :=
  (redisqueue.consumer.consumeLoop json c ctx fuel s [], none)

/-- A client that replays a given sequence of BRPOP results: the state is the
results still to come, each the returned slice and the returned error; BRPOP
hands out the next one, and the error `Nil` of an empty list once they are
used up. LPUSH is not used with it and does nothing. -/
def redisqueue.scriptedClient : redisqueue.Client (List (List String × Option Error)) :=
  { LPush := fun s _ _ _ => (s, none)
    BRPop := fun s _ _ _ =>
      match s with
      | [] => ([], [], some (.sentinel .redisNil))
      | (result, err) :: rest => (rest, result, err) }

/-- The job a popped result stands for, in the words of the specification: a
result that came with an error, that is not a key and a value, or whose value
is a malformed payload stands for none; a key with a well-formed payload
stands for the job decoded from it. -/
def redisqueue.decodePop (json : redisqueue.JSON) (pop : List String × Option Error) :
    Option queue.Job :=
  match pop with
  | (_, some _) => none
  | ([_, value], none) =>
    match json.Unmarshal value with
    | (_, some _) => none
    | (payload, none) =>
      some
        { ExecutionID := payload.ExecutionID
          Language := payload.Language
          UserID := payload.UserID }
  | (_, none) => none

namespace http

structure createExecutionRequest where
  Language : String
  Code : String
  TimeoutMs : Int
  Stdin : String
  UserName : String
deriving DecidableEq, Repr

def validateCreateExecutionRequest (req : createExecutionRequest) : Option Error :=
  if req.Language = "" then
    some (.wrap (ErrInvalidArgument.errorText ++ ": language is required") ErrInvalidArgument)
  else if req.Code = "" then
    some (.wrap (ErrInvalidArgument.errorText ++ ": code is required") ErrInvalidArgument)
  else if req.TimeoutMs ≤ 0 then
    some (.wrap (ErrInvalidArgument.errorText ++ ": timeout_ms must be positive")
      ErrInvalidArgument)
  else if req.UserName = "" then
    some (.wrap (ErrInvalidArgument.errorText ++ ": user_name is required") ErrInvalidArgument)
  else
    none

/-- The value `params` that `handleCreateExecution` builds from the decoded
request and passes to `CreateExecutionAndEnqueue`. -/
def createExecutionParams (req : createExecutionRequest) : service.CreateExecutionParams :=
  { Language := req.Language
    Code := req.Code
    Stdin := req.Stdin
    TimeoutMs := req.TimeoutMs
    UserID := req.UserName }

end http

/-! ## Concrete values used to instantiate the theorems -/

/-- A freshly created execution: id e1, python, created at instant 100. -/
def sampleQueued : Execution :=
  { ID := "e1"
    Language := "python"
    Code := "print(1)"
    Stdin := ""
    TimeoutMs := 1000
    Status := ExecutionStatusQueued
    Stdout := ""
    Stderr := ""
    ExitCode := none
    CreatedAt := { nanos := 100, loc := none }
    StartedAt := none
    FinishedAt := none
    UserID := "u1" }

/-- The sample execution after MarkRunning at instant 200. -/
def sampleRunning : Execution :=
  { sampleQueued with
    Status := ExecutionStatusRunning
    StartedAt := some { nanos := 200, loc := none } }

/-- The sample execution after MarkCompleted at instant 300. -/
def sampleCompleted : Execution :=
  { sampleRunning with
    Status := ExecutionStatusCompleted
    Stdout := "1\n"
    ExitCode := some 0
    FinishedAt := some { nanos := 300, loc := none } }

/-- A repository holding the sample execution in status queued. -/
def sampleRepo : memory.ExecutionRepository :=
  { store := [("e1", some sampleQueued)] }

/-- A context that was cancelled. -/
def sampleCancelled : Context :=
  { err := some (.sentinel .contextCanceled) }

/-- An empty in-memory queue with room for three jobs. -/
def sampleQueue : queuememory.InMemoryQueue :=
  { ch := [], cap := 3 }

/-- An in-memory queue whose buffer of one job is full. -/
def sampleFullQueue : queuememory.InMemoryQueue :=
  { ch := [{ ExecutionID := "e0", Language := "node", UserID := "u0" }], cap := 1 }

/-- A service over the in-memory queue whose id generator returns e1 and whose
clock reads instant 100. -/
def sampleService : service.executionService queuememory.InMemoryQueue :=
  { producer := queuememory.InMemoryQueue.asProducer
    idGenerator := fun _ => ("e1", none)
    now := fun _ => { nanos := 100, loc := none } }

/-- Creation parameters naming a language that is not in the catalog. -/
def sampleParams : service.CreateExecutionParams :=
  { Language := "cobol"
    Code := "DISPLAY 1."
    Stdin := ""
    TimeoutMs := 1000
    UserID := "u1" }

/-- The execution the sample service creates from the sample parameters. -/
def sampleCreated : Execution :=
  { sampleQueued with Language := "cobol", Code := "DISPLAY 1." }

/-- A clock whose call number n reads instant 1000 + n. -/
def sampleNow (n : Nat) : Time :=
  { nanos := 1000 + n, loc := none }

/-- A repository holding e1 in status completed and e2 in status queued. -/
def sampleRepoTwo : memory.ExecutionRepository :=
  { store := [("e1", some sampleCompleted), ("e2", some { sampleQueued with ID := "e2" })] }

/-- Split a list of characters at each bar. -/
def splitAtBars : List Char → List (List Char)
  | [] => [[]]
  | c :: cs =>
    if c = '|' then [] :: splitAtBars cs
    else
      match splitAtBars cs with
      | [] => [[c]]
      | part :: parts => (c :: part) :: parts

/-- A stand-in for the JSON encoding, used to instantiate theorems: the three
fields joined by bars; a text without exactly two bars is malformed. -/
def sampleJSON : redisqueue.JSON :=
  { Marshal := fun p => (p.ExecutionID ++ "|" ++ p.Language ++ "|" ++ p.UserID, none)
    Unmarshal := fun data =>
      match splitAtBars data.data with
      | [a, b, c] => ({ ExecutionID := ⟨a⟩, Language := ⟨b⟩, UserID := ⟨c⟩ }, none)
      | _ => ({ ExecutionID := "", Language := "", UserID := "" },
          some (.plain "invalid character looking for beginning of value")) }

/-- Three jobs, the second without language, the third without user. -/
def sampleJobs : List queue.Job :=
  [ { ExecutionID := "e1", Language := "python", UserID := "u1" },
    { ExecutionID := "e2", Language := "", UserID := "u2" },
    { ExecutionID := "e3", Language := "node", UserID := "" } ]

/-- A sequence of BRPOP results: a good payload, a malformed one, a timeout, a
result with one element, one with three, and a good payload again. -/
def samplePops : List (List String × Option Error) :=
  [ (["queue:executions", "e1|python|u1"], none),
    (["queue:executions", "not a payload"], none),
    ([], some (.sentinel .redisNil)),
    (["queue:executions"], none),
    (["queue:executions", "e9|node|u9", "extra"], none),
    (["queue:executions", "e2||u2"], none) ]

/-- A create request that passes the HTTP validation. -/
def sampleRequest : http.createExecutionRequest :=
  { Language := "cobol"
    Code := "DISPLAY 1."
    TimeoutMs := 1000
    Stdin := ""
    UserName := "u1" }

/-- A repository holding two queued python executions: e3, whose program exits
with code 3, and e4, whose program never ends. -/
def sampleProgramsRepo : memory.ExecutionRepository :=
  { store :=
      [ ("e3", some { sampleQueued with ID := "e3", Code := "import sys; sys.exit(3)" }),
        ("e4", some { sampleQueued with ID := "e4", Code := "while True: pass" }) ] }

/-! ## Properties of the state machine -/

theorem transition_ok (e : Execution) (s : ExecutionStatus)
    (h : (e.Status, s) ∈ allowedPairs) :
    transition e s = ({ e with Status := s }, none) := by
  simp only [allowedPairs, List.mem_cons, Prod.mk.injEq, List.mem_singleton,
    List.not_mem_nil, or_false] at h
  rcases h with ⟨h1, h2⟩ | ⟨h1, h2⟩ | ⟨h1, h2⟩ | ⟨h1, h2⟩ <;>
    simp [transition, h1, h2, finalStatuses, statusTransitions, List.lookup,
      ExecutionStatusQueued, ExecutionStatusRunning, ExecutionStatusCompleted,
      ExecutionStatusFailed, ExecutionStatusTimedOut]

theorem statusTransitions_lookup (st : ExecutionStatus) :
    statusTransitions.lookup st =
      if st = ExecutionStatusQueued then some [ExecutionStatusRunning]
      else if st = ExecutionStatusRunning then
        some [ExecutionStatusCompleted, ExecutionStatusFailed, ExecutionStatusTimedOut]
      else none := by
  by_cases hq : st = ExecutionStatusQueued
  · subst hq
    rfl
  · by_cases hr : st = ExecutionStatusRunning
    · subst hr
      rfl
    · have hq2 : (st == ExecutionStatusQueued) = false := by simpa using hq
      have hr2 : (st == ExecutionStatusRunning) = false := by simpa using hr
      simp [statusTransitions, List.lookup, hq, hr, hq2, hr2]

theorem transition_err (e : Execution) (s : ExecutionStatus)
    (h : (e.Status, s) ∉ allowedPairs) :
    ∃ msg, transition e s = (e, some (.wrap msg ErrInvalidStatusTransition)) := by
  simp only [allowedPairs, List.mem_cons, Prod.mk.injEq, List.mem_singleton,
    List.not_mem_nil, or_false] at h
  unfold transition
  split
  · exact ⟨_, rfl⟩
  · rw [statusTransitions_lookup]
    by_cases hq : e.Status = ExecutionStatusQueued
    · have hs : s ≠ ExecutionStatusRunning := fun hs => h (Or.inl ⟨hq, hs⟩)
      simp [hq, hs]
    · by_cases hr : e.Status = ExecutionStatusRunning
      · have hs : s ∉ [ExecutionStatusCompleted, ExecutionStatusFailed,
            ExecutionStatusTimedOut] := by
          simp only [List.mem_cons, List.mem_singleton, List.not_mem_nil, or_false]
          intro hs
          apply h
          rcases hs with hs | hs | hs
          · exact Or.inr (Or.inl ⟨hr, hs⟩)
          · exact Or.inr (Or.inr (Or.inl ⟨hr, hs⟩))
          · exact Or.inr (Or.inr (Or.inr ⟨hr, hs⟩))
        have hne : ExecutionStatusRunning ≠ ExecutionStatusQueued := by decide
        simp only [hr, hne, if_false, if_true, hs, not_false_eq_true]
        exact ⟨_, rfl⟩
      · simp [hq, hr]

theorem run_of_not_allowed (e : Execution) (c : Call) (ht : c.time.IsZero = false)
    (h : (e.Status, c.target) ∉ allowedPairs) :
    ∃ msg, c.run e = (e, some (.wrap msg ErrInvalidStatusTransition)) := by
  obtain ⟨msg, hm⟩ := transition_err e c.target h
  refine ⟨msg, ?_⟩
  cases c <;> simp only [Call.time] at ht <;>
    simp [Call.run, Call.target, MarkRunning, MarkCompleted, MarkFailed, MarkTimedOut, ht] at hm ⊢ <;>
    rw [hm]

theorem run_of_zero (e : Execution) (c : Call) (ht : c.time.IsZero = true) :
    ∃ msg, c.run e = (e, some (.wrap msg ErrInvalidExecution)) := by
  cases c <;> simp only [Call.time] at ht <;>
    simp [Call.run, MarkRunning, MarkCompleted, MarkFailed, MarkTimedOut, ht]

theorem markRunning_ok (e : Execution) (t : Time) (ht : t.IsZero = false)
    (h : e.Status = ExecutionStatusQueued) :
    MarkRunning e t =
      ({ e with Status := ExecutionStatusRunning, StartedAt := some t.UTC }, none) := by
  have hp : (e.Status, ExecutionStatusRunning) ∈ allowedPairs := by simp [h, allowedPairs]
  simp [MarkRunning, ht, transition_ok e _ hp, timePtr]

theorem markCompleted_ok (e : Execution) (stdout stderr : String) (code : Int) (t : Time)
    (ht : t.IsZero = false) (h : e.Status = ExecutionStatusRunning) :
    MarkCompleted e stdout stderr code t =
      ({ e with
          Status := ExecutionStatusCompleted
          Stdout := stdout
          Stderr := stderr
          ExitCode := some code
          FinishedAt := some t.UTC }, none) := by
  have hp : (e.Status, ExecutionStatusCompleted) ∈ allowedPairs := by simp [h, allowedPairs]
  simp [MarkCompleted, ht, transition_ok e _ hp, timePtr, intPtr]

theorem markFailed_ok (e : Execution) (stderr : String) (code : Option Int) (t : Time)
    (ht : t.IsZero = false) (h : e.Status = ExecutionStatusRunning) :
    MarkFailed e stderr code t =
      ({ e with
          Status := ExecutionStatusFailed
          Stderr := stderr
          ExitCode := code
          FinishedAt := some t.UTC }, none) := by
  have hp : (e.Status, ExecutionStatusFailed) ∈ allowedPairs := by simp [h, allowedPairs]
  simp [MarkFailed, ht, transition_ok e _ hp, timePtr]

theorem markTimedOut_ok (e : Execution) (t : Time) (ht : t.IsZero = false)
    (h : e.Status = ExecutionStatusRunning) :
    MarkTimedOut e t =
      ({ e with Status := ExecutionStatusTimedOut, FinishedAt := some t.UTC }, none) := by
  have hp : (e.Status, ExecutionStatusTimedOut) ∈ allowedPairs := by simp [h, allowedPairs]
  simp [MarkTimedOut, ht, transition_ok e _ hp, timePtr]

theorem final_not_allowed (st s : ExecutionStatus) (h : st ∈ finalStatuses) :
    (st, s) ∉ allowedPairs := by
  simp only [finalStatuses, List.mem_cons, List.mem_singleton, List.not_mem_nil, or_false] at h
  rcases h with h | h | h <;> subst h <;>
    simp [allowedPairs, ExecutionStatusQueued, ExecutionStatusRunning,
      ExecutionStatusCompleted, ExecutionStatusFailed, ExecutionStatusTimedOut]

/-- Every call either fails and leaves the receiver as it was, or its timestamp
is non-zero, the receiver had the one status the call is allowed from, and the
receiver is updated as the method body says. -/
theorem run_cases (e : Execution) (c : Call) :
    (∃ err, c.run e = (e, some err)) ∨
    (c.time.IsZero = false ∧
      match c with
      | .markRunning t =>
        e.Status = ExecutionStatusQueued ∧
        c.run e = ({ e with Status := ExecutionStatusRunning, StartedAt := some t.UTC }, none)
      | .markCompleted out err code t =>
        e.Status = ExecutionStatusRunning ∧
        c.run e =
          ({ e with
              Status := ExecutionStatusCompleted
              Stdout := out
              Stderr := err
              ExitCode := some code
              FinishedAt := some t.UTC }, none)
      | .markFailed err code t =>
        e.Status = ExecutionStatusRunning ∧
        c.run e =
          ({ e with
              Status := ExecutionStatusFailed
              Stderr := err
              ExitCode := code
              FinishedAt := some t.UTC }, none)
      | .markTimedOut t =>
        e.Status = ExecutionStatusRunning ∧
        c.run e =
          ({ e with Status := ExecutionStatusTimedOut, FinishedAt := some t.UTC }, none)) := by
  by_cases hz : c.time.IsZero = true
  · obtain ⟨msg, hm⟩ := run_of_zero e c hz
    exact Or.inl ⟨_, hm⟩
  · have hz2 : c.time.IsZero = false := by simpa using hz
    by_cases hp : (e.Status, c.target) ∈ allowedPairs
    · right
      refine ⟨hz2, ?_⟩
      simp only [allowedPairs, List.mem_cons, Prod.mk.injEq, List.mem_singleton,
        List.not_mem_nil, or_false] at hp
      cases c with
      | markRunning t =>
        have hs : e.Status = ExecutionStatusQueued := by
          rcases hp with ⟨h1, _⟩ | ⟨_, h2⟩ | ⟨_, h2⟩ | ⟨_, h2⟩
          · exact h1
          · exact absurd h2 (by simp only [Call.target]; decide)
          · exact absurd h2 (by simp only [Call.target]; decide)
          · exact absurd h2 (by simp only [Call.target]; decide)
        exact ⟨hs, markRunning_ok e t hz2 hs⟩
      | markCompleted out err code t =>
        have hs : e.Status = ExecutionStatusRunning := by
          rcases hp with ⟨_, h2⟩ | ⟨h1, _⟩ | ⟨h1, _⟩ | ⟨h1, _⟩
          · exact absurd h2 (by simp only [Call.target]; decide)
          · exact h1
          · exact h1
          · exact h1
        exact ⟨hs, markCompleted_ok e out err code t hz2 hs⟩
      | markFailed err code t =>
        have hs : e.Status = ExecutionStatusRunning := by
          rcases hp with ⟨_, h2⟩ | ⟨h1, _⟩ | ⟨h1, _⟩ | ⟨h1, _⟩
          · exact absurd h2 (by simp only [Call.target]; decide)
          · exact h1
          · exact h1
          · exact h1
        exact ⟨hs, markFailed_ok e err code t hz2 hs⟩
      | markTimedOut t =>
        have hs : e.Status = ExecutionStatusRunning := by
          rcases hp with ⟨_, h2⟩ | ⟨h1, _⟩ | ⟨h1, _⟩ | ⟨h1, _⟩
          · exact absurd h2 (by simp only [Call.target]; decide)
          · exact h1
          · exact h1
          · exact h1
        exact ⟨hs, markTimedOut_ok e t hz2 hs⟩
    · obtain ⟨msg, hm⟩ := run_of_not_allowed e c hz2 hp
      exact Or.inl ⟨_, hm⟩

theorem statusFieldsInv_run (e : Execution) (c : Call) (h : StatusFieldsInv e) :
    StatusFieldsInv (c.run e).1 := by
  rcases run_cases e c with ⟨err, hr⟩ | ⟨_, hr⟩
  · rw [hr]
    exact h
  · obtain ⟨h1, h2, h3, h4, h5⟩ := h
    cases c with
    | markRunning t =>
      obtain ⟨hs, hr⟩ := hr
      rw [hr]
      obtain ⟨-, hf, hx⟩ := h1 hs
      simp [StatusFieldsInv, hf, hx, ExecutionStatusQueued, ExecutionStatusRunning,
        ExecutionStatusCompleted, ExecutionStatusFailed, ExecutionStatusTimedOut]
    | markCompleted out err code t =>
      obtain ⟨hs, hr⟩ := hr
      rw [hr]
      obtain ⟨hst, -, -⟩ := h2 hs
      simp [StatusFieldsInv, hst, ExecutionStatusQueued, ExecutionStatusRunning,
        ExecutionStatusCompleted, ExecutionStatusFailed, ExecutionStatusTimedOut]
    | markFailed err code t =>
      obtain ⟨hs, hr⟩ := hr
      rw [hr]
      obtain ⟨hst, -, -⟩ := h2 hs
      simp [StatusFieldsInv, hst, ExecutionStatusQueued, ExecutionStatusRunning,
        ExecutionStatusCompleted, ExecutionStatusFailed, ExecutionStatusTimedOut]
    | markTimedOut t =>
      obtain ⟨hs, hr⟩ := hr
      rw [hr]
      obtain ⟨hst, -, hx⟩ := h2 hs
      simp [StatusFieldsInv, hst, hx, ExecutionStatusQueued, ExecutionStatusRunning,
        ExecutionStatusCompleted, ExecutionStatusFailed, ExecutionStatusTimedOut]

theorem statusFieldsInv_runCalls (calls : List Call) (e : Execution) (h : StatusFieldsInv e) :
    StatusFieldsInv (runCalls e calls) := by
  induction calls generalizing e with
  | nil => exact h
  | cons c cs ih =>
    simp only [runCalls, List.foldl_cons]
    exact ih _ (statusFieldsInv_run e c h)

/-- What NewExecution returns when it returns an execution. -/
theorem newExecution_some (id language code stdin userID : String) (timeoutMs : Int)
    (createdAt : Time) (e : Execution)
    (h : (NewExecution id language code stdin timeoutMs userID createdAt).1 = some e) :
    e =
      { ID := id
        Language := language
        Code := code
        Stdin := stdin
        TimeoutMs := timeoutMs
        Status := ExecutionStatusQueued
        Stdout := ""
        Stderr := ""
        ExitCode := none
        CreatedAt := createdAt.UTC
        StartedAt := none
        FinishedAt := none
        UserID := userID } := by
  unfold NewExecution at h
  split at h
  · simp at h
  · split at h
    · simp at h
    · simp only [Option.some.injEq] at h
      exact h.symm

theorem statusFieldsInv_new (id language code stdin userID : String) (timeoutMs : Int)
    (createdAt : Time) (e : Execution)
    (h : (NewExecution id language code stdin timeoutMs userID createdAt).1 = some e) :
    StatusFieldsInv e := by
  rw [newExecution_some _ _ _ _ _ _ _ e h]
  simp [StatusFieldsInv, ExecutionStatusQueued, ExecutionStatusRunning,
    ExecutionStatusCompleted, ExecutionStatusFailed, ExecutionStatusTimedOut]

theorem timestampsOrdered_run (e : Execution) (c : Call) (hinv : StatusFieldsInv e)
    (hord : timestampsOrdered e = true)
    (hc : (c.run e).2 = none →
      e.CreatedAt.NotAfter c.time = true ∧
        ∀ s, e.StartedAt = some s → s.NotAfter c.time = true) :
    timestampsOrdered (c.run e).1 = true := by
  rcases run_cases e c with ⟨err, hr⟩ | ⟨_, hr⟩
  · rw [hr]
    exact hord
  · obtain ⟨h1, h2, -, -, -⟩ := hinv
    cases c with
    | markRunning t =>
      obtain ⟨hs, hr⟩ := hr
      rw [hr] at hc ⊢
      obtain ⟨-, hf, -⟩ := h1 hs
      have hct := (hc rfl).1
      simp only [Call.time, Time.NotAfter, decide_eq_true_eq] at hct
      simp [timestampsOrdered, hf, Time.NotAfter, Time.UTC, hct]
    | markCompleted out err code t =>
      obtain ⟨hs, hr⟩ := hr
      rw [hr] at hc ⊢
      obtain ⟨hst, -, -⟩ := h2 hs
      obtain ⟨s, hs2⟩ := Option.isSome_iff_exists.mp hst
      have hct := (hc rfl).1
      have hst2 := (hc rfl).2 s hs2
      simp only [Call.time, Time.NotAfter, decide_eq_true_eq] at hct hst2
      simp [timestampsOrdered, hs2, Time.NotAfter] at hord
      simp [timestampsOrdered, hs2, Time.NotAfter, Time.UTC, hct, hst2, hord.1]
    | markFailed err code t =>
      obtain ⟨hs, hr⟩ := hr
      rw [hr] at hc ⊢
      obtain ⟨hst, -, -⟩ := h2 hs
      obtain ⟨s, hs2⟩ := Option.isSome_iff_exists.mp hst
      have hct := (hc rfl).1
      have hst2 := (hc rfl).2 s hs2
      simp only [Call.time, Time.NotAfter, decide_eq_true_eq] at hct hst2
      simp [timestampsOrdered, hs2, Time.NotAfter] at hord
      simp [timestampsOrdered, hs2, Time.NotAfter, Time.UTC, hct, hst2, hord.1]
    | markTimedOut t =>
      obtain ⟨hs, hr⟩ := hr
      rw [hr] at hc ⊢
      obtain ⟨hst, -, -⟩ := h2 hs
      obtain ⟨s, hs2⟩ := Option.isSome_iff_exists.mp hst
      have hct := (hc rfl).1
      have hst2 := (hc rfl).2 s hs2
      simp only [Call.time, Time.NotAfter, decide_eq_true_eq] at hct hst2
      simp [timestampsOrdered, hs2, Time.NotAfter] at hord
      simp [timestampsOrdered, hs2, Time.NotAfter, Time.UTC, hct, hst2, hord.1]

theorem timestampsOrdered_runCalls (calls : List Call) (e : Execution)
    (hinv : StatusFieldsInv e) (hord : timestampsOrdered e = true)
    (hcalls : callsOrdered e calls = true) :
    timestampsOrdered (runCalls e calls) = true := by
  induction calls generalizing e with
  | nil => exact hord
  | cons c cs ih =>
    simp only [callsOrdered, Bool.and_eq_true] at hcalls
    obtain ⟨hstep, hrest⟩ := hcalls
    simp only [runCalls, List.foldl_cons]
    refine ih _ (statusFieldsInv_run e c hinv) (timestampsOrdered_run e c hinv hord ?_) hrest
    intro hok
    rw [if_pos hok] at hstep
    simp only [Bool.and_eq_true] at hstep
    refine ⟨hstep.1, ?_⟩
    intro s hs
    have h2 := hstep.2
    rw [hs] at h2
    exact h2

theorem allStatuses_run (e : Execution) (c : Call) (h : e.Status ∈ allStatuses) :
    (c.run e).1.Status ∈ allStatuses := by
  rcases run_cases e c with ⟨err, hr⟩ | ⟨-, hr⟩
  · rw [hr]
    exact h
  · cases c <;> obtain ⟨-, hr⟩ := hr <;> rw [hr] <;> dsimp only <;> decide

theorem allStatuses_runCalls (calls : List Call) (e : Execution) (h : e.Status ∈ allStatuses) :
    (runCalls e calls).Status ∈ allStatuses := by
  induction calls generalizing e with
  | nil => exact h
  | cons c cs ih =>
    simp only [runCalls, List.foldl_cons]
    exact ih _ (allStatuses_run e c h)

theorem visited_of_fail (e : Execution) (c : Call) (cs : List Call) (err : Error)
    (h : c.run e = (e, some err)) : visited e (c :: cs) = visited e cs := by
  simp [visited, h]

theorem visited_of_ok (e e2 : Execution) (c : Call) (cs : List Call)
    (h : c.run e = (e2, none)) : visited e (c :: cs) = e.Status :: visited e2 cs := by
  simp [visited, h]

theorem visited_final (calls : List Call) (e : Execution) (h : e.Status ∈ finalStatuses) :
    visited e calls = [e.Status] := by
  induction calls with
  | nil => rfl
  | cons c cs ih =>
    rcases run_cases e c with ⟨err, hr⟩ | ⟨hz, -⟩
    · rw [visited_of_fail e c cs err hr, ih]
    · obtain ⟨msg, hm⟩ := run_of_not_allowed e c hz (final_not_allowed _ _ h)
      rw [visited_of_fail e c cs _ hm, ih]

theorem visited_running (calls : List Call) (e : Execution)
    (h : e.Status = ExecutionStatusRunning) :
    ∃ T ∈ finalStatuses, visited e calls <+: [ExecutionStatusRunning, T] := by
  induction calls with
  | nil => exact ⟨ExecutionStatusCompleted, by decide, [ExecutionStatusCompleted], by simp [visited, h]⟩
  | cons c cs ih =>
    rcases run_cases e c with ⟨err, hr⟩ | ⟨-, hr⟩
    · rw [visited_of_fail e c cs err hr]
      exact ih
    · cases c with
      | markRunning t =>
        obtain ⟨hs, -⟩ := hr
        rw [h] at hs
        exact absurd hs (by decide)
      | markCompleted out err code t =>
        obtain ⟨-, hr⟩ := hr
        rw [visited_of_ok e _ _ cs hr, visited_final cs _ (by simp [finalStatuses]), h]
        exact ⟨ExecutionStatusCompleted, by decide, [], rfl⟩
      | markFailed err code t =>
        obtain ⟨-, hr⟩ := hr
        rw [visited_of_ok e _ _ cs hr, visited_final cs _ (by simp [finalStatuses]), h]
        exact ⟨ExecutionStatusFailed, by decide, [], rfl⟩
      | markTimedOut t =>
        obtain ⟨-, hr⟩ := hr
        rw [visited_of_ok e _ _ cs hr, visited_final cs _ (by simp [finalStatuses]), h]
        exact ⟨ExecutionStatusTimedOut, by decide, [], rfl⟩

theorem visited_queued (calls : List Call) (e : Execution)
    (h : e.Status = ExecutionStatusQueued) :
    ∃ T ∈ finalStatuses,
      visited e calls <+: [ExecutionStatusQueued, ExecutionStatusRunning, T] := by
  induction calls with
  | nil =>
    exact ⟨ExecutionStatusCompleted, by decide,
      [ExecutionStatusRunning, ExecutionStatusCompleted], by simp [visited, h]⟩
  | cons c cs ih =>
    rcases run_cases e c with ⟨err, hr⟩ | ⟨-, hr⟩
    · rw [visited_of_fail e c cs err hr]
      exact ih
    · cases c with
      | markRunning t =>
        obtain ⟨-, hr⟩ := hr
        rw [visited_of_ok e _ _ cs hr, h]
        obtain ⟨T, hT, rest, hrest⟩ := visited_running cs
          { e with Status := ExecutionStatusRunning, StartedAt := some t.UTC } rfl
        exact ⟨T, hT, rest, by rw [List.cons_append, hrest]⟩
      | markCompleted out err code t =>
        obtain ⟨hs, -⟩ := hr
        rw [h] at hs
        exact absurd hs (by decide)
      | markFailed err code t =>
        obtain ⟨hs, -⟩ := hr
        rw [h] at hs
        exact absurd hs (by decide)
      | markTimedOut t =>
        obtain ⟨hs, -⟩ := hr
        rw [h] at hs
        exact absurd hs (by decide)

theorem newExecution_ok (id language code stdin userID : String) (timeoutMs : Int)
    (createdAt : Time) (hid : id ≠ "") (hlang : language ≠ "") (hcode : code ≠ "")
    (huser : userID ≠ "") (htimeout : 0 < timeoutMs) (hcreated : createdAt.IsZero = false) :
    NewExecution id language code stdin timeoutMs userID createdAt =
      (some
        { ID := id
          Language := language
          Code := code
          Stdin := stdin
          TimeoutMs := timeoutMs
          Status := ExecutionStatusQueued
          Stdout := ""
          Stderr := ""
          ExitCode := none
          CreatedAt := createdAt.UTC
          StartedAt := none
          FinishedAt := none
          UserID := userID }, none) := by
  simp [NewExecution, hid, hlang, hcode, huser, hcreated, not_le.mpr htimeout]

theorem newExecution_rejected (id language code stdin userID : String) (timeoutMs : Int)
    (createdAt : Time)
    (h : id = "" ∨ language = "" ∨ code = "" ∨ userID = "" ∨ createdAt.IsZero = true ∨
      timeoutMs ≤ 0) :
    ∃ msg, NewExecution id language code stdin timeoutMs userID createdAt =
      (none, some (.wrap msg ErrInvalidExecution)) := by
  unfold NewExecution
  split
  · exact ⟨_, rfl⟩
  · rename_i h1
    split
    · exact ⟨_, rfl⟩
    · rename_i h2
      exfalso
      rcases h with h | h | h | h | h | h
      · exact h1 (Or.inl h)
      · exact h1 (Or.inr (Or.inl h))
      · exact h1 (Or.inr (Or.inr (Or.inl h)))
      · exact h1 (Or.inr (Or.inr (Or.inr (Or.inl h))))
      · exact h1 (Or.inr (Or.inr (Or.inr (Or.inr h))))
      · exact h2 h

/-! ### C1 -/

/-- C1: a call of MarkRunning, MarkCompleted, MarkFailed or MarkTimedOut with a
non-zero timestamp whose (current status, target status) pair is not an allowed
transition returns an error that is ErrInvalidStatusTransition and leaves the
execution equal to what it was, whatever status string it holds. In particular
every call is rejected from a final status, and after a successful MarkRunning
a second MarkRunning is rejected and the status is still running. -/
theorem mark_rejects_invalid_transition (e : Execution) (c : Call) (t1 t2 : Time)
    (hc : c.time.IsZero = false) (h2 : t2.IsZero = false) :
    ((e.Status, c.target) ∉ allowedPairs →
      failsWith (c.run e).2 .ErrInvalidStatusTransition = true ∧ (c.run e).1 = e) ∧
    (e.Status ∈ finalStatuses →
      failsWith (c.run e).2 .ErrInvalidStatusTransition = true ∧ (c.run e).1 = e) ∧
    ((MarkRunning e t1).2 = none →
      failsWith (MarkRunning (MarkRunning e t1).1 t2).2 .ErrInvalidStatusTransition = true ∧
      (MarkRunning (MarkRunning e t1).1 t2).1 = (MarkRunning e t1).1 ∧
      (MarkRunning (MarkRunning e t1).1 t2).1.Status = ExecutionStatusRunning) := by
  have main : ∀ (e : Execution) (c : Call), c.time.IsZero = false →
      (e.Status, c.target) ∉ allowedPairs →
      failsWith (c.run e).2 .ErrInvalidStatusTransition = true ∧ (c.run e).1 = e := by
    intro e c hc hp
    obtain ⟨msg, hm⟩ := run_of_not_allowed e c hc hp
    rw [hm]
    exact ⟨rfl, rfl⟩
  refine ⟨main e c hc, fun hf => main e c hc (final_not_allowed _ _ hf), ?_⟩
  intro hok
  have hq : e.Status = ExecutionStatusQueued := by
    by_contra hne
    have hne2 : ¬ e.Status = "queued" := hne
    have hp : (e.Status, (Call.markRunning t1).target) ∉ allowedPairs := by
      simp [allowedPairs, Call.target, hne2, ExecutionStatusQueued, ExecutionStatusRunning,
        ExecutionStatusCompleted, ExecutionStatusFailed, ExecutionStatusTimedOut]
    by_cases hz : t1.IsZero = true
    · obtain ⟨msg, hm⟩ := run_of_zero e (.markRunning t1) hz
      simp only [Call.run] at hm
      rw [hm] at hok
      exact absurd hok (by simp)
    · obtain ⟨msg, hm⟩ := run_of_not_allowed e (.markRunning t1) (by simpa [Call.time] using hz) hp
      simp only [Call.run] at hm
      rw [hm] at hok
      exact absurd hok (by simp)
  have hz : t1.IsZero = false := by
    by_contra hz
    obtain ⟨msg, hm⟩ := run_of_zero e (.markRunning t1) (by simpa [Call.time] using hz)
    simp only [Call.run] at hm
    rw [hm] at hok
    exact absurd hok (by simp)
  rw [markRunning_ok e t1 hz hq]
  have hp : (({ e with Status := ExecutionStatusRunning, StartedAt := some t1.UTC } :
      Execution).Status, (Call.markRunning t2).target) ∉ allowedPairs := by
    simp [allowedPairs, Call.target, ExecutionStatusQueued, ExecutionStatusRunning,
      ExecutionStatusCompleted, ExecutionStatusFailed, ExecutionStatusTimedOut]
  have := main _ (.markRunning t2) (by simpa [Call.time] using h2) hp
  simp only [Call.run] at this
  exact ⟨this.1, this.2, by rw [this.2]⟩

theorem mark_rejects_invalid_transition_witness :
    (failsWith ((Call.markTimedOut ⟨7, some "CET"⟩).run sampleQueued).2
        .ErrInvalidStatusTransition = true ∧
      ((Call.markTimedOut ⟨7, some "CET"⟩).run sampleQueued).1 = sampleQueued) ∧
    (failsWith ((Call.markRunning ⟨7, none⟩).run sampleCompleted).2
        .ErrInvalidStatusTransition = true ∧
      ((Call.markRunning ⟨7, none⟩).run sampleCompleted).1 = sampleCompleted) ∧
    (failsWith (MarkRunning (MarkRunning sampleQueued ⟨200, none⟩).1 ⟨250, none⟩).2
        .ErrInvalidStatusTransition = true ∧
      (MarkRunning (MarkRunning sampleQueued ⟨200, none⟩).1 ⟨250, none⟩).1 =
        (MarkRunning sampleQueued ⟨200, none⟩).1 ∧
      (MarkRunning (MarkRunning sampleQueued ⟨200, none⟩).1 ⟨250, none⟩).1.Status =
        ExecutionStatusRunning) :=
  ⟨(mark_rejects_invalid_transition sampleQueued (.markTimedOut ⟨7, some "CET"⟩)
      ⟨200, none⟩ ⟨250, none⟩ (by decide) (by decide)).1 (by decide),
   (mark_rejects_invalid_transition sampleCompleted (.markRunning ⟨7, none⟩)
      ⟨200, none⟩ ⟨250, none⟩ (by decide) (by decide)).2.1 (by decide),
   (mark_rejects_invalid_transition sampleQueued (.markRunning ⟨7, none⟩)
      ⟨200, none⟩ ⟨250, none⟩ (by decide) (by decide)).2.2 (by decide)⟩

/-! ### C2 -/

/-- C2: with a non-zero timestamp t each allowed transition succeeds and changes
only its own fields. MarkRunning on a queued execution sets status running and
startedAt; MarkCompleted on a running one sets status completed, stdout,
stderr, exitCode (present) and finishedAt; MarkFailed on a running one sets
status failed, stderr, exitCode (as given, present or absent) and finishedAt;
MarkTimedOut on a running one sets status timed_out and finishedAt. All other
fields, the request fields and createdAt among them, keep their values. The
stored timestamp is t in UTC, the same instant as t. -/
theorem mark_allowed_transition_frame (e : Execution) (t : Time) (stdout stderr : String)
    (code : Int) (optCode : Option Int) (ht : t.IsZero = false) :
    (e.Status = ExecutionStatusQueued →
      MarkRunning e t =
        ({ e with Status := ExecutionStatusRunning, StartedAt := some t.UTC }, none)) ∧
    (e.Status = ExecutionStatusRunning →
      MarkCompleted e stdout stderr code t =
        ({ e with
            Status := ExecutionStatusCompleted
            Stdout := stdout
            Stderr := stderr
            ExitCode := some code
            FinishedAt := some t.UTC }, none)) ∧
    (e.Status = ExecutionStatusRunning →
      MarkFailed e stderr optCode t =
        ({ e with
            Status := ExecutionStatusFailed
            Stderr := stderr
            ExitCode := optCode
            FinishedAt := some t.UTC }, none)) ∧
    (e.Status = ExecutionStatusRunning →
      MarkTimedOut e t =
        ({ e with Status := ExecutionStatusTimedOut, FinishedAt := some t.UTC }, none)) ∧
    t.UTC.Equal t = true ∧ t.UTC.loc = none :=
  ⟨markRunning_ok e t ht, markCompleted_ok e stdout stderr code t ht,
    markFailed_ok e stderr optCode t ht, markTimedOut_ok e t ht,
    by simp [Time.Equal, Time.UTC], rfl⟩

theorem mark_allowed_transition_frame_witness :
    MarkRunning sampleQueued ⟨200, some "CET"⟩ = (sampleRunning, none) ∧
    MarkCompleted sampleRunning "1\n" "" 0 ⟨300, none⟩ = (sampleCompleted, none) ∧
    MarkFailed sampleRunning "boom" none ⟨300, none⟩ =
      ({ sampleRunning with
          Status := ExecutionStatusFailed
          Stderr := "boom"
          ExitCode := none
          FinishedAt := some ⟨300, none⟩ }, none) ∧
    MarkTimedOut sampleRunning ⟨300, none⟩ =
      ({ sampleRunning with
          Status := ExecutionStatusTimedOut
          FinishedAt := some ⟨300, none⟩ }, none) :=
  ⟨(mark_allowed_transition_frame sampleQueued ⟨200, some "CET"⟩ "" "" 0 none
      (by decide)).1 rfl,
   (mark_allowed_transition_frame sampleRunning ⟨300, none⟩ "1\n" "" 0 none
      (by decide)).2.1 rfl,
   (mark_allowed_transition_frame sampleRunning ⟨300, none⟩ "" "boom" 0 none
      (by decide)).2.2.1 rfl,
   (mark_allowed_transition_frame sampleRunning ⟨300, none⟩ "" "" 0 none
      (by decide)).2.2.2.1 rfl⟩

/-! ### C3 -/

/-- C3: for non-empty id, language, code and userID, any stdin, timeoutMs > 0
and a non-zero createdAt, NewExecution returns no error and an execution with
status queued, the given request fields, createdAt the given instant (in UTC),
empty stdout and stderr, and no exitCode, startedAt or finishedAt; its
timestamps are ordered. -/
theorem newExecution_valid (id language code stdin userID : String) (timeoutMs : Int)
    (createdAt : Time) (hid : id ≠ "") (hlang : language ≠ "") (hcode : code ≠ "")
    (huser : userID ≠ "") (htimeout : 0 < timeoutMs) (hcreated : createdAt.IsZero = false) :
    NewExecution id language code stdin timeoutMs userID createdAt =
      (some
        { ID := id
          Language := language
          Code := code
          Stdin := stdin
          TimeoutMs := timeoutMs
          Status := ExecutionStatusQueued
          Stdout := ""
          Stderr := ""
          ExitCode := none
          CreatedAt := createdAt.UTC
          StartedAt := none
          FinishedAt := none
          UserID := userID }, none) ∧
    createdAt.UTC.Equal createdAt = true ∧
    (∀ e, (NewExecution id language code stdin timeoutMs userID createdAt).1 = some e →
      timestampsOrdered e = true) := by
  have hnew : NewExecution id language code stdin timeoutMs userID createdAt =
      (some
        { ID := id
          Language := language
          Code := code
          Stdin := stdin
          TimeoutMs := timeoutMs
          Status := ExecutionStatusQueued
          Stdout := ""
          Stderr := ""
          ExitCode := none
          CreatedAt := createdAt.UTC
          StartedAt := none
          FinishedAt := none
          UserID := userID }, none) := by
    simp [NewExecution, hid, hlang, hcode, huser, hcreated, not_le.mpr htimeout]
  refine ⟨hnew, by simp [Time.Equal, Time.UTC], ?_⟩
  intro e he
  rw [hnew] at he
  simp only [Option.some.injEq] at he
  subst he
  simp [timestampsOrdered]

theorem newExecution_valid_witness :
    NewExecution "e1" "python" "print(1)" "" 1000 "u1" ⟨100, some "CET"⟩ =
      (some sampleQueued, none) :=
  (newExecution_valid "e1" "python" "print(1)" "" "u1" 1000 ⟨100, some "CET"⟩
    (by decide) (by decide) (by decide) (by decide) (by decide) (by decide)).1

/-! ### C4 -/

/-- C4: NewExecution returns no execution and an error that is
ErrInvalidExecution when id, language, code or userID is empty, when createdAt
is the zero time, or when timeoutMs is not positive. -/
theorem newExecution_invalid (id language code stdin userID : String) (timeoutMs : Int)
    (createdAt : Time)
    (h : id = "" ∨ language = "" ∨ code = "" ∨ userID = "" ∨ createdAt.IsZero = true ∨
      timeoutMs ≤ 0) :
    (NewExecution id language code stdin timeoutMs userID createdAt).1 = none ∧
    failsWith (NewExecution id language code stdin timeoutMs userID createdAt).2
      .ErrInvalidExecution = true := by
  unfold NewExecution
  split
  · exact ⟨rfl, rfl⟩
  · rename_i h1
    split
    · exact ⟨rfl, rfl⟩
    · rename_i h2
      exfalso
      rcases h with h | h | h | h | h | h
      · exact h1 (Or.inl h)
      · exact h1 (Or.inr (Or.inl h))
      · exact h1 (Or.inr (Or.inr (Or.inl h)))
      · exact h1 (Or.inr (Or.inr (Or.inr (Or.inl h))))
      · exact h1 (Or.inr (Or.inr (Or.inr (Or.inr h))))
      · exact h2 h

theorem newExecution_invalid_witness :
    (NewExecution "e1" "python" "print(1)" "" (-1) "u1" ⟨100, none⟩).1 = none ∧
    failsWith (NewExecution "e1" "python" "print(1)" "" (-1) "u1" ⟨100, none⟩).2
      .ErrInvalidExecution = true :=
  newExecution_invalid "e1" "python" "print(1)" "" "u1" (-1) ⟨100, none⟩
    (Or.inr (Or.inr (Or.inr (Or.inr (Or.inr (by decide))))))

/-! ### C5 -/

/-- C5 as stated fails: an execution created at instant 100 accepts
MarkRunning with the non-zero timestamp 50 and then has startedAt before
createdAt, so the timestamps are not ordered for every sequence of calls with
arbitrary non-zero timestamps. -/
theorem timestamps_ordered_counterexample :
    NewExecution "e1" "python" "print(1)" "" 1000 "u1" ⟨100, none⟩ = (some sampleQueued, none) ∧
    (Time.mk 50 none).IsZero = false ∧
    runCalls sampleQueued [.markRunning ⟨50, none⟩] =
      { sampleQueued with
        Status := ExecutionStatusRunning
        StartedAt := some ⟨50, none⟩ } ∧
    timestampsOrdered (runCalls sampleQueued [.markRunning ⟨50, none⟩]) = false ∧
    ¬ (∀ (id language code stdin userID : String) (timeoutMs : Int) (createdAt : Time)
        (calls : List Call) (e : Execution),
        NewExecution id language code stdin timeoutMs userID createdAt = (some e, none) →
        (∀ c ∈ calls, c.time.IsZero = false) →
        timestampsOrdered (runCalls e calls) = true) := by
  refine ⟨by decide, by decide, by decide, by decide, ?_⟩
  intro h
  have h1 := h "e1" "python" "print(1)" "" "u1" 1000 ⟨100, none⟩ [.markRunning ⟨50, none⟩]
    sampleQueued (by decide) (by decide)
  revert h1
  decide

/-- C5 amended: for an execution built by NewExecution and driven by any
sequence of MarkRunning, MarkCompleted, MarkFailed and MarkTimedOut calls,
failed calls included, in which every call that succeeds carries a timestamp
not earlier than createdAt nor than the startedAt already set, the timestamps
that are set satisfy createdAt <= startedAt <= finishedAt. -/
theorem timestamps_ordered_of_callsOrdered (id language code stdin userID : String)
    (timeoutMs : Int) (createdAt : Time) (calls : List Call) (e : Execution)
    (hnew : (NewExecution id language code stdin timeoutMs userID createdAt).1 = some e)
    (hcalls : callsOrdered e calls = true) :
    timestampsOrdered (runCalls e calls) = true := by
  refine timestampsOrdered_runCalls calls e (statusFieldsInv_new _ _ _ _ _ _ _ e hnew) ?_ hcalls
  rw [newExecution_some _ _ _ _ _ _ _ e hnew]
  simp [timestampsOrdered]

theorem timestamps_ordered_of_callsOrdered_witness :
    timestampsOrdered
      (runCalls sampleQueued
        [.markRunning ⟨200, none⟩, .markTimedOut ⟨0, none⟩, .markRunning ⟨50, none⟩,
          .markCompleted "1\n" "" 0 ⟨300, none⟩]) = true ∧
    runCalls sampleQueued
        [.markRunning ⟨200, none⟩, .markTimedOut ⟨0, none⟩, .markRunning ⟨50, none⟩,
          .markCompleted "1\n" "" 0 ⟨300, none⟩] = sampleCompleted :=
  ⟨timestamps_ordered_of_callsOrdered "e1" "python" "print(1)" "" "u1" 1000 ⟨100, none⟩
    [.markRunning ⟨200, none⟩, .markTimedOut ⟨0, none⟩, .markRunning ⟨50, none⟩,
      .markCompleted "1\n" "" 0 ⟨300, none⟩] sampleQueued (by decide) (by decide),
   by decide⟩

/-! ### C6 -/

/-- C6: after a successful MarkRunning, MarkCompleted, MarkFailed or
MarkTimedOut call the status is not queued, and if it is completed, failed or
timed_out then the status before the call was running. Consequently the
statuses visited by an execution built by NewExecution, under any sequence of
calls, are an initial part of: queued, running, one final status. -/
theorem successful_call_status_order (e : Execution) (c : Call)
    (hok : (c.run e).2 = none) :
    (c.run e).1.Status ≠ ExecutionStatusQueued ∧
    ((c.run e).1.Status ∈ finalStatuses → e.Status = ExecutionStatusRunning) ∧
    (∀ (id language code stdin userID : String) (timeoutMs : Int) (createdAt : Time)
      (e0 : Execution) (calls : List Call),
      (NewExecution id language code stdin timeoutMs userID createdAt).1 = some e0 →
      ∃ T ∈ finalStatuses,
        visited e0 calls <+: [ExecutionStatusQueued, ExecutionStatusRunning, T]) := by
  refine ⟨?_, ?_, ?_⟩
  · rcases run_cases e c with ⟨err, hr⟩ | ⟨-, hr⟩
    · rw [hr] at hok
      exact absurd hok (by simp)
    · cases c <;> obtain ⟨-, hr⟩ := hr <;> rw [hr] <;> dsimp only <;> decide
  · rcases run_cases e c with ⟨err, hr⟩ | ⟨-, hr⟩
    · rw [hr] at hok
      exact absurd hok (by simp)
    · cases c with
      | markRunning t =>
        obtain ⟨-, hr⟩ := hr
        rw [hr]
        dsimp only
        intro hfin
        exact absurd hfin (by decide)
      | markCompleted out err code t => exact fun _ => hr.1
      | markFailed err code t => exact fun _ => hr.1
      | markTimedOut t => exact fun _ => hr.1
  · intro id language code stdin userID timeoutMs createdAt e0 calls hnew
    apply visited_queued
    rw [newExecution_some _ _ _ _ _ _ _ e0 hnew]

theorem successful_call_status_order_witness :
    ((Call.markFailed "boom" (some 2) ⟨300, none⟩).run sampleRunning).1.Status ≠
      ExecutionStatusQueued ∧
    (((Call.markFailed "boom" (some 2) ⟨300, none⟩).run sampleRunning).1.Status ∈
        finalStatuses →
      sampleRunning.Status = ExecutionStatusRunning) ∧
    visited sampleQueued
        [.markCompleted "" "" 0 ⟨150, none⟩, .markRunning ⟨200, none⟩,
          .markRunning ⟨250, none⟩, .markFailed "boom" (some 2) ⟨300, none⟩,
          .markTimedOut ⟨400, none⟩] =
      [ExecutionStatusQueued, ExecutionStatusRunning, ExecutionStatusFailed] :=
  ⟨(successful_call_status_order sampleRunning (.markFailed "boom" (some 2) ⟨300, none⟩)
      (by decide)).1,
   (successful_call_status_order sampleRunning (.markFailed "boom" (some 2) ⟨300, none⟩)
      (by decide)).2.1,
   by decide⟩

/-! ### C7 -/

/-- C7: the presence of the optional fields follows the status. Queued: no
startedAt, finishedAt, exitCode. Running: startedAt, no finishedAt, no
exitCode. Completed: all three. Failed: startedAt and finishedAt. Timed_out:
startedAt and finishedAt, no exitCode. This holds for the result of
NewExecution and is kept by every MarkRunning, MarkCompleted, MarkFailed and
MarkTimedOut call, successful or not; a successful MarkFailed stores the exit
code exactly as supplied. So an execution built by NewExecution has an
exitCode only in status completed or failed, and always in completed. -/
theorem status_fields_invariant (id language code stdin userID : String) (timeoutMs : Int)
    (createdAt : Time) (e0 : Execution) (calls : List Call)
    (hnew : (NewExecution id language code stdin timeoutMs userID createdAt).1 = some e0) :
    StatusFieldsInv e0 ∧
    (∀ (e : Execution) (c : Call), StatusFieldsInv e → StatusFieldsInv (c.run e).1) ∧
    (∀ (e : Execution) (stderr : String) (optCode : Option Int) (t : Time),
      (MarkFailed e stderr optCode t).2 = none →
      (MarkFailed e stderr optCode t).1.ExitCode = optCode) ∧
    StatusFieldsInv (runCalls e0 calls) ∧
    ((runCalls e0 calls).ExitCode.isSome = true →
      (runCalls e0 calls).Status = ExecutionStatusCompleted ∨
      (runCalls e0 calls).Status = ExecutionStatusFailed) ∧
    ((runCalls e0 calls).Status = ExecutionStatusCompleted →
      (runCalls e0 calls).ExitCode.isSome = true) := by
  have h0 := statusFieldsInv_new _ _ _ _ _ _ _ e0 hnew
  have hq : e0.Status = ExecutionStatusQueued := by
    rw [newExecution_some _ _ _ _ _ _ _ e0 hnew]
  have hinv := statusFieldsInv_runCalls calls e0 h0
  refine ⟨h0, statusFieldsInv_run, ?_, hinv, ?_, ?_⟩
  · intro e stderr optCode t hok
    rcases run_cases e (.markFailed stderr optCode t) with ⟨err, hr⟩ | ⟨-, -, hr⟩
    · simp only [Call.run] at hr
      rw [hr] at hok
      exact absurd hok (by simp)
    · simp only [Call.run] at hr
      rw [hr]
  · intro hx
    have hmem := allStatuses_runCalls calls e0 (by rw [hq]; decide)
    obtain ⟨h1, h2, -, -, h5⟩ := hinv
    simp only [allStatuses, List.mem_cons, List.mem_singleton, List.not_mem_nil,
      or_false] at hmem
    rcases hmem with hm | hm | hm | hm | hm
    · rw [(h1 hm).2.2] at hx
      exact absurd hx (by simp)
    · rw [(h2 hm).2.2] at hx
      exact absurd hx (by simp)
    · exact Or.inl hm
    · exact Or.inr hm
    · rw [(h5 hm).2.2] at hx
      exact absurd hx (by simp)
  · intro hs
    exact (hinv.2.2.1 hs).2.2

theorem status_fields_invariant_witness :
    StatusFieldsInv sampleQueued ∧
    StatusFieldsInv
      (runCalls sampleQueued
        [.markRunning ⟨200, none⟩, .markFailed "boom" none ⟨300, none⟩,
          .markCompleted "" "" 0 ⟨400, none⟩]) ∧
    (runCalls sampleQueued
        [.markRunning ⟨200, none⟩, .markFailed "boom" none ⟨300, none⟩,
          .markCompleted "" "" 0 ⟨400, none⟩]).Status = ExecutionStatusFailed ∧
    (runCalls sampleQueued
        [.markRunning ⟨200, none⟩, .markFailed "boom" none ⟨300, none⟩,
          .markCompleted "" "" 0 ⟨400, none⟩]).ExitCode = none :=
  ⟨(status_fields_invariant "e1" "python" "print(1)" "" "u1" 1000 ⟨100, none⟩ sampleQueued
      [.markRunning ⟨200, none⟩, .markFailed "boom" none ⟨300, none⟩,
        .markCompleted "" "" 0 ⟨400, none⟩] (by decide)).1,
   (status_fields_invariant "e1" "python" "print(1)" "" "u1" 1000 ⟨100, none⟩ sampleQueued
      [.markRunning ⟨200, none⟩, .markFailed "boom" none ⟨300, none⟩,
        .markCompleted "" "" 0 ⟨400, none⟩] (by decide)).2.2.2.1,
   by decide, by decide⟩

/-! ## Properties of the in-memory repository -/

open memory

theorem lookup_mapSet_same {α : Type} (m : List (String × α)) (k : String) (v : α) :
    (mapSet m k v).lookup k = some v := by
  induction m with
  | nil => simp [mapSet, List.lookup]
  | cons p m ih =>
    obtain ⟨k2, v2⟩ := p
    by_cases h : k2 = k
    · simp [mapSet, h, List.lookup]
    · have hb : (k == k2) = false := by
        simpa using fun hk : k = k2 => h hk.symm
      simp [mapSet, h, List.lookup, hb, ih]

theorem lookup_mapSet_other {α : Type} (m : List (String × α)) (k k2 : String) (v : α)
    (hne : k2 ≠ k) : (mapSet m k v).lookup k2 = m.lookup k2 := by
  induction m with
  | nil =>
    have hb : (k2 == k) = false := by simpa using hne
    simp [mapSet, List.lookup, hb]
  | cons p m ih =>
    obtain ⟨k3, v3⟩ := p
    by_cases h : k3 = k
    · subst h
      have hb : (k2 == k3) = false := by simpa using hne
      simp [mapSet, List.lookup, hb]
    · by_cases h2 : k2 = k3
      · subst h2
        simp [mapSet, h, List.lookup]
      · have hb : (k2 == k3) = false := by simpa using h2
        simp [mapSet, h, List.lookup, hb, ih]

theorem cloneExecution_some (e : Execution) : memory.cloneExecution (some e) = some e := by
  obtain ⟨id, lang, code, stdin, timeout, status, out, err, exitCode, created, started,
    finished, user⟩ := e
  cases exitCode <;> cases started <;> cases finished <;> rfl

/-- C8: in the in-memory repository, CreateExecution of an execution whose id
is not stored succeeds and GetExecutionByID of that id then returns an
execution equal to it in every field, optional ones included; UpdateExecution
of an execution whose id is stored succeeds and GetExecutionByID then returns
an execution equal to the one passed, so the whole record is overwritten. -/
theorem create_update_get_roundtrip (r : ExecutionRepository) (e : Execution) :
    (r.store.lookup e.ID = none →
      (r.CreateExecution (some e)).2 = none ∧
      (r.CreateExecution (some e)).1.GetExecutionByID e.ID = (some e, none)) ∧
    ((r.store.lookup e.ID).isSome = true →
      (r.UpdateExecution (some e)).2 = none ∧
      (r.UpdateExecution (some e)).1.GetExecutionByID e.ID = (some e, none)) := by
  constructor
  · intro h
    simp [ExecutionRepository.CreateExecution, ExecutionRepository.GetExecutionByID, h,
      lookup_mapSet_same, cloneExecution_some]
  · intro h
    simp [ExecutionRepository.UpdateExecution, ExecutionRepository.GetExecutionByID, h,
      lookup_mapSet_same, cloneExecution_some]

theorem create_update_get_roundtrip_witness :
    ((NewExecutionRepository.CreateExecution (some sampleCompleted)).2 = none ∧
      (NewExecutionRepository.CreateExecution (some sampleCompleted)).1.GetExecutionByID "e1" =
        (some sampleCompleted, none)) ∧
    ((sampleRepo.UpdateExecution (some sampleCompleted)).2 = none ∧
      (sampleRepo.UpdateExecution (some sampleCompleted)).1.GetExecutionByID "e1" =
        (some sampleCompleted, none)) :=
  ⟨(create_update_get_roundtrip NewExecutionRepository sampleCompleted).1 (by decide),
   (create_update_get_roundtrip sampleRepo sampleCompleted).2 (by decide)⟩

/-- C9: in the in-memory repository, for an id that is not stored,
GetExecutionByID returns no execution and the error ErrExecutionNotFound, and
UpdateExecution of an execution with that id returns ErrExecutionNotFound and
leaves the store as it was, without inserting the record. -/
theorem missing_id_not_found (r : ExecutionRepository) (id : String) (e : Execution)
    (hid : e.ID = id) (h : r.store.lookup id = none) :
    r.GetExecutionByID id = (none, some ErrExecutionNotFound) ∧
    r.UpdateExecution (some e) = (r, some ErrExecutionNotFound) ∧
    failsWith (r.GetExecutionByID id).2 .ErrExecutionNotFound = true ∧
    failsWith (r.UpdateExecution (some e)).2 .ErrExecutionNotFound = true ∧
    (r.UpdateExecution (some e)).1.store.lookup id = none := by
  subst hid
  have hg : r.GetExecutionByID e.ID = (none, some ErrExecutionNotFound) := by
    simp [ExecutionRepository.GetExecutionByID, h]
  have hu : r.UpdateExecution (some e) = (r, some ErrExecutionNotFound) := by
    simp [ExecutionRepository.UpdateExecution, h]
  refine ⟨hg, hu, ?_, ?_, ?_⟩
  · rw [hg]
    rfl
  · rw [hu]
    rfl
  · rw [hu]
    exact h

theorem missing_id_not_found_witness :
    sampleRepo.GetExecutionByID "missing" = (none, some ErrExecutionNotFound) ∧
    sampleRepo.UpdateExecution (some { sampleRunning with ID := "missing" }) =
      (sampleRepo, some ErrExecutionNotFound) :=
  ⟨(missing_id_not_found sampleRepo "missing" { sampleRunning with ID := "missing" } rfl
      (by decide)).1,
   (missing_id_not_found sampleRepo "missing" { sampleRunning with ID := "missing" } rfl
      (by decide)).2.1⟩

/-- C10: in the in-memory repository, CreateExecution of an execution whose id
is already stored returns an error and leaves the store as it was, so
GetExecutionByID of that id still returns the record stored before. -/
theorem create_existing_id_rejected (r : ExecutionRepository) (e orig : Execution)
    (h : r.store.lookup e.ID = some (some orig)) :
    (r.CreateExecution (some e)).2.isSome = true ∧
    (r.CreateExecution (some e)).1 = r ∧
    (r.CreateExecution (some e)).1.GetExecutionByID e.ID = (some orig, none) := by
  have hc : r.CreateExecution (some e) =
      (r, some (.plain ("execution with id " ++ e.ID ++ " already exists"))) := by
    simp [ExecutionRepository.CreateExecution, h]
  rw [hc]
  refine ⟨rfl, rfl, ?_⟩
  simp [ExecutionRepository.GetExecutionByID, h, cloneExecution_some]

theorem create_existing_id_rejected_witness :
    (sampleRepo.CreateExecution (some sampleCompleted)).2 =
      some (.plain "execution with id e1 already exists") ∧
    (sampleRepo.CreateExecution (some sampleCompleted)).1 = sampleRepo ∧
    (sampleRepo.CreateExecution (some sampleCompleted)).1.GetExecutionByID "e1" =
      (some sampleQueued, none) :=
  ⟨by decide,
   (create_existing_id_rejected sampleRepo sampleCompleted sampleQueued (by decide)).2.1,
   (create_existing_id_rejected sampleRepo sampleCompleted sampleQueued (by decide)).2.2⟩

/-! ## Properties of the service -/

theorem getExecutionByID_stored (repo : ExecutionRepository) (id : String) (e : Execution)
    (h : repo.store.lookup id = some (some e)) :
    repo.GetExecutionByID id = (some e, none) := by
  simp [ExecutionRepository.GetExecutionByID, h, cloneExecution_some]

theorem getExecutionByID_missing (repo : ExecutionRepository) (id : String)
    (h : repo.store.lookup id = none) :
    repo.GetExecutionByID id = (none, some ErrExecutionNotFound) := by
  simp [ExecutionRepository.GetExecutionByID, h]

theorem markOp_call_time (op : service.MarkOp) : op.call.time = op.finishedAt := by
  cases op <;> rfl

theorem markOp_run_zero (op : service.MarkOp) (repo : ExecutionRepository) (id : String)
    (hz : op.finishedAt.IsZero = true) :
    ∃ msg, op.run repo id = (repo, none, some (.wrap msg service.ErrInvalidServiceInput)) := by
  cases op <;> simp only [service.MarkOp.finishedAt] at hz <;>
    simp [service.MarkOp.run, service.MarkExecutionCompleted, service.MarkExecutionFailed,
      service.MarkExecutionTimedOut, hz]

theorem markOp_run_missing (op : service.MarkOp) (repo : ExecutionRepository) (id : String)
    (hz : op.finishedAt.IsZero = false) (h : repo.store.lookup id = none) :
    op.run repo id = (repo, none, some ErrExecutionNotFound) := by
  cases op <;> simp only [service.MarkOp.finishedAt] at hz <;>
    simp [service.MarkOp.run, service.MarkExecutionCompleted, service.MarkExecutionFailed,
      service.MarkExecutionTimedOut, hz, getExecutionByID_missing repo id h]

theorem markOp_run_rejected (op : service.MarkOp) (repo : ExecutionRepository) (id : String)
    (e : Execution) (hz : op.finishedAt.IsZero = false)
    (h : repo.store.lookup id = some (some e)) (hs : e.Status ≠ ExecutionStatusRunning) :
    op.run repo id = (repo, none, (op.call.run e).2) ∧
    ∃ msg, op.call.run e = (e, some (.wrap msg ErrInvalidStatusTransition)) := by
  have hp : (e.Status, op.call.target) ∉ allowedPairs := by
    cases op <;>
      simp [allowedPairs, service.MarkOp.call, Call.target, hs] <;>
      intro _ <;> decide
  obtain ⟨msg, hm⟩ := run_of_not_allowed e op.call (by rw [markOp_call_time]; exact hz) hp
  refine ⟨?_, msg, hm⟩
  rw [hm]
  cases op <;> simp only [service.MarkOp.finishedAt] at hz <;>
    simp only [service.MarkOp.call, Call.run] at hm <;>
    simp [service.MarkOp.run, service.MarkExecutionCompleted, service.MarkExecutionFailed,
      service.MarkExecutionTimedOut, hz, getExecutionByID_stored repo id e h, hm]

/-! ### C11 -/

/-- C11: each of MarkExecutionCompleted, MarkExecutionFailed and
MarkExecutionTimedOut over the in-memory repository (a) with a zero finished-at
timestamp fails with ErrInvalidServiceInput; (b) otherwise, for an id that is
not stored, fails with ErrExecutionNotFound itself; (c) otherwise, for a stored
execution whose status is not running, fails with the ErrInvalidStatusTransition
error of the domain call. In all three cases no execution is returned and the
repository is exactly what it was, so the stored record is still returned by
GetExecutionByID. -/
theorem service_mark_failure_keeps_repository (op : service.MarkOp)
    (repo : ExecutionRepository) (id : String) :
    (op.finishedAt.IsZero = true →
      failsWith (op.run repo id).2.2 .ErrInvalidServiceInput = true ∧
      (op.run repo id).2.1 = none ∧ (op.run repo id).1 = repo) ∧
    (op.finishedAt.IsZero = false → repo.store.lookup id = none →
      (op.run repo id).2.2 = some ErrExecutionNotFound ∧
      (op.run repo id).2.1 = none ∧ (op.run repo id).1 = repo) ∧
    (op.finishedAt.IsZero = false →
      ∀ e : Execution, repo.store.lookup id = some (some e) →
        e.Status ≠ ExecutionStatusRunning →
        failsWith (op.run repo id).2.2 .ErrInvalidStatusTransition = true ∧
        (op.run repo id).2.2 = (op.call.run e).2 ∧
        (op.run repo id).2.1 = none ∧ (op.run repo id).1 = repo ∧
        (op.run repo id).1.GetExecutionByID id = (some e, none)) := by
  refine ⟨?_, ?_, ?_⟩
  · intro hz
    obtain ⟨msg, hm⟩ := markOp_run_zero op repo id hz
    rw [hm]
    exact ⟨rfl, rfl, rfl⟩
  · intro hz h
    rw [markOp_run_missing op repo id hz h]
    exact ⟨rfl, rfl, rfl⟩
  · intro hz e h hs
    obtain ⟨hrun, msg, hm⟩ := markOp_run_rejected op repo id e hz h hs
    rw [hrun, hm]
    exact ⟨rfl, rfl, rfl, rfl, getExecutionByID_stored repo id e h⟩

theorem service_mark_failure_keeps_repository_witness :
    (failsWith ((service.MarkOp.timedOut ⟨0, none⟩).run sampleRepo "e1").2.2
        .ErrInvalidServiceInput = true ∧
      ((service.MarkOp.timedOut ⟨0, none⟩).run sampleRepo "e1").2.1 = none ∧
      ((service.MarkOp.timedOut ⟨0, none⟩).run sampleRepo "e1").1 = sampleRepo) ∧
    (((service.MarkOp.failed ⟨"boom", some 1, ⟨300, none⟩⟩).run sampleRepo "missing").2.2 =
        some ErrExecutionNotFound ∧
      ((service.MarkOp.failed ⟨"boom", some 1, ⟨300, none⟩⟩).run sampleRepo "missing").2.1 =
        none ∧
      ((service.MarkOp.failed ⟨"boom", some 1, ⟨300, none⟩⟩).run sampleRepo "missing").1 =
        sampleRepo) ∧
    (failsWith ((service.MarkOp.completed ⟨"1\n", "", 0, ⟨300, none⟩⟩).run sampleRepo "e1").2.2
        .ErrInvalidStatusTransition = true ∧
      ((service.MarkOp.completed ⟨"1\n", "", 0, ⟨300, none⟩⟩).run sampleRepo "e1").1 =
        sampleRepo) :=
  ⟨(service_mark_failure_keeps_repository (.timedOut ⟨0, none⟩) sampleRepo "e1").1 (by decide),
   (service_mark_failure_keeps_repository (.failed ⟨"boom", some 1, ⟨300, none⟩⟩) sampleRepo
      "missing").2.1 (by decide) (by decide),
   ⟨((service_mark_failure_keeps_repository (.completed ⟨"1\n", "", 0, ⟨300, none⟩⟩) sampleRepo
      "e1").2.2 (by decide) sampleQueued (by decide) (by decide)).1,
    ((service_mark_failure_keeps_repository (.completed ⟨"1\n", "", 0, ⟨300, none⟩⟩) sampleRepo
      "e1").2.2 (by decide) sampleQueued (by decide) (by decide)).2.2.2.1⟩⟩

theorem happy_path_from_queued (e0 : Execution) (startedAt : Time)
    (result : service.CompleteExecutionResult) (hid : e0.ID ≠ "")
    (hq : e0.Status = ExecutionStatusQueued) (hstarted : startedAt.IsZero = false)
    (hfinished : result.FinishedAt.IsZero = false) :
    ∃ (e1 e2 e3 : Execution) (r1 r2 r3 : ExecutionRepository),
      NewExecutionRepository.CreateExecution (some e0) = (r1, none) ∧
      r1.GetExecutionByID e0.ID = (some e1, none) ∧
      MarkRunning e1 startedAt = (e2, none) ∧
      r1.UpdateExecution (some e2) = (r2, none) ∧
      service.MarkExecutionCompleted r2 e0.ID result = (r3, some e3, none) ∧
      service.GetExecution r3 e0.ID = (some e3, none) ∧
      e3 =
        { e0 with
          Status := ExecutionStatusCompleted
          Stdout := result.Stdout
          Stderr := result.Stderr
          ExitCode := some result.ExitCode
          StartedAt := some startedAt.UTC
          FinishedAt := some result.FinishedAt.UTC } := by
  refine ⟨e0, { e0 with Status := ExecutionStatusRunning, StartedAt := some startedAt.UTC },
    { e0 with
      Status := ExecutionStatusCompleted
      Stdout := result.Stdout
      Stderr := result.Stderr
      ExitCode := some result.ExitCode
      StartedAt := some startedAt.UTC
      FinishedAt := some result.FinishedAt.UTC },
    ⟨[(e0.ID, some e0)]⟩,
    ⟨[(e0.ID, some { e0 with Status := ExecutionStatusRunning, StartedAt := some startedAt.UTC })]⟩,
    ⟨[(e0.ID, some
      { e0 with
        Status := ExecutionStatusCompleted
        Stdout := result.Stdout
        Stderr := result.Stderr
        ExitCode := some result.ExitCode
        StartedAt := some startedAt.UTC
        FinishedAt := some result.FinishedAt.UTC })]⟩,
    ?_, ?_, markRunning_ok e0 startedAt hstarted hq, ?_, ?_, ?_, rfl⟩
  · simp [ExecutionRepository.CreateExecution, NewExecutionRepository, mapSet,
      cloneExecution_some]
  · simp [ExecutionRepository.GetExecutionByID, List.lookup, cloneExecution_some]
  · simp [ExecutionRepository.UpdateExecution, List.lookup, mapSet, cloneExecution_some]
  · simp [service.MarkExecutionCompleted, hfinished, ExecutionRepository.GetExecutionByID,
      ExecutionRepository.UpdateExecution, List.lookup, mapSet, cloneExecution_some,
      markCompleted_ok { e0 with Status := ExecutionStatusRunning, StartedAt := some startedAt.UTC }
        result.Stdout result.Stderr result.ExitCode result.FinishedAt hfinished rfl]
  · simp [service.GetExecution, hid, ExecutionRepository.GetExecutionByID, List.lookup,
      cloneExecution_some]

/-! ### C12 -/

/-- C12, the happy path: for valid creation input, a non-zero start time and an
executor result with a non-zero finish time, starting from the empty in-memory
repository, NewExecution gives a queued execution, CreateExecution stores it,
GetExecutionByID loads it, MarkRunning and UpdateExecution succeed, the
service MarkExecutionCompleted succeeds, and GetExecution then returns the
execution with status completed, the given exit code (present), stdout and
stderr, and the request fields as created. -/
theorem happy_path_completed (id language code stdin userID : String) (timeoutMs : Int)
    (createdAt startedAt : Time) (result : service.CompleteExecutionResult)
    (hid : id ≠ "") (hlang : language ≠ "") (hcode : code ≠ "") (huser : userID ≠ "")
    (htimeout : 0 < timeoutMs) (hcreated : createdAt.IsZero = false)
    (hstarted : startedAt.IsZero = false) (hfinished : result.FinishedAt.IsZero = false) :
    ∃ (e0 e1 e2 e3 : Execution) (r1 r2 r3 : ExecutionRepository),
      NewExecution id language code stdin timeoutMs userID createdAt = (some e0, none) ∧
      e0.Status = ExecutionStatusQueued ∧
      NewExecutionRepository.CreateExecution (some e0) = (r1, none) ∧
      r1.GetExecutionByID id = (some e1, none) ∧
      MarkRunning e1 startedAt = (e2, none) ∧
      r1.UpdateExecution (some e2) = (r2, none) ∧
      service.MarkExecutionCompleted r2 id result = (r3, some e3, none) ∧
      service.GetExecution r3 id = (some e3, none) ∧
      e3 =
        { ID := id
          Language := language
          Code := code
          Stdin := stdin
          TimeoutMs := timeoutMs
          Status := ExecutionStatusCompleted
          Stdout := result.Stdout
          Stderr := result.Stderr
          ExitCode := some result.ExitCode
          CreatedAt := createdAt.UTC
          StartedAt := some startedAt.UTC
          FinishedAt := some result.FinishedAt.UTC
          UserID := userID } := by
  have hnew := newExecution_ok id language code stdin userID timeoutMs createdAt
    hid hlang hcode huser htimeout hcreated
  obtain ⟨e1, e2, e3, r1, r2, r3, h1, h2, h3, h4, h5, h6, h7⟩ :=
    happy_path_from_queued
      { ID := id
        Language := language
        Code := code
        Stdin := stdin
        TimeoutMs := timeoutMs
        Status := ExecutionStatusQueued
        Stdout := ""
        Stderr := ""
        ExitCode := none
        CreatedAt := createdAt.UTC
        StartedAt := none
        FinishedAt := none
        UserID := userID } startedAt result hid rfl hstarted hfinished
  exact ⟨_, e1, e2, e3, r1, r2, r3, hnew, rfl, h1, h2, h3, h4, h5, h6, h7⟩

theorem happy_path_completed_witness :
    ∃ (e0 e1 e2 e3 : Execution) (r1 r2 r3 : ExecutionRepository),
      NewExecution "e1" "python" "print(1)" "" 1000 "u1" ⟨100, none⟩ = (some e0, none) ∧
      e0.Status = ExecutionStatusQueued ∧
      NewExecutionRepository.CreateExecution (some e0) = (r1, none) ∧
      r1.GetExecutionByID "e1" = (some e1, none) ∧
      MarkRunning e1 ⟨200, none⟩ = (e2, none) ∧
      r1.UpdateExecution (some e2) = (r2, none) ∧
      service.MarkExecutionCompleted r2 "e1" ⟨"1\n", "", 0, ⟨300, none⟩⟩ =
        (r3, some e3, none) ∧
      service.GetExecution r3 "e1" = (some e3, none) ∧
      e3 = sampleCompleted :=
  happy_path_completed "e1" "python" "print(1)" "" "u1" 1000 ⟨100, none⟩ ⟨200, none⟩
    ⟨"1\n", "", 0, ⟨300, none⟩⟩ (by decide) (by decide) (by decide) (by decide) (by decide)
    (by decide) (by decide) (by decide)

/-- With valid parameters, a generated id that is not empty and not stored and
a non-zero clock value, CreateExecutionAndEnqueue stores the new queued
execution and calls Enqueue once, with the job built from it: its results are
those of that one Enqueue call. -/
theorem createExecutionAndEnqueue_valid {Q : Type} (s : service.executionService Q)
    (repo : ExecutionRepository) (q : Q) (ctx : Context)
    (params : service.CreateExecutionParams) (execID : String)
    (huser : params.UserID ≠ "") (hlang : params.Language ≠ "") (hcode : params.Code ≠ "")
    (htimeout : 0 < params.TimeoutMs) (hgen : s.idGenerator () = (execID, none))
    (hid : execID ≠ "") (hfresh : repo.store.lookup execID = none)
    (hnow : (s.now ()).IsZero = false) :
    service.CreateExecutionAndEnqueue s repo q ctx params =
      (s.producer.Enqueue q ctx
        { ExecutionID := execID, Language := params.Language, UserID := params.UserID }).map
        fun r =>
          (({ store := mapSet repo.store execID
                (some
                  { ID := execID
                    Language := params.Language
                    Code := params.Code
                    Stdin := params.Stdin
                    TimeoutMs := params.TimeoutMs
                    Status := ExecutionStatusQueued
                    Stdout := ""
                    Stderr := ""
                    ExitCode := none
                    CreatedAt := (s.now ()).UTC
                    StartedAt := none
                    FinishedAt := none
                    UserID := params.UserID }) } : ExecutionRepository),
            r.1,
            (match r.2 with
              | some _ => none
              | none =>
                some
                  { ID := execID
                    Language := params.Language
                    Code := params.Code
                    Stdin := params.Stdin
                    TimeoutMs := params.TimeoutMs
                    Status := ExecutionStatusQueued
                    Stdout := ""
                    Stderr := ""
                    ExitCode := none
                    CreatedAt := (s.now ()).UTC
                    StartedAt := none
                    FinishedAt := none
                    UserID := params.UserID }),
            r.2) := by
  have hnew := newExecution_ok execID params.Language params.Code params.Stdin
    params.UserID params.TimeoutMs (s.now ()) hid hlang hcode huser htimeout hnow
  unfold service.CreateExecutionAndEnqueue
  rw [if_neg huser, hgen]
  simp only [hnew, ExecutionRepository.CreateExecution, hfresh, Option.isSome_none,
    Bool.false_eq_true, if_false, cloneExecution_some]
  apply List.map_congr_left
  rintro ⟨q2, _ | err⟩ _ <;> rfl

/-! ## Properties of the in-memory queue -/

open queuememory

theorem inMemory_enqueue_accepted (q q2 : InMemoryQueue) (ctx : Context) (job : queue.Job)
    (h : (q2, none) ∈ q.Enqueue ctx job) :
    q2 = { q with ch := q.ch ++ [job] } ∧ job.ExecutionID ≠ "" ∧ q.ch.length < q.cap := by
  unfold InMemoryQueue.Enqueue at h
  by_cases hid : job.ExecutionID = ""
  · simp [hid] at h
  · rw [if_neg hid, List.mem_append] at h
    rcases h with h | h
    · by_cases hd : ctx.Done = true
      · simp only [hd, if_true, List.mem_singleton, Prod.mk.injEq] at h
        rw [Context.Done, ← h.2] at hd
        exact absurd hd (by simp)
      · simp [hd] at h
    · by_cases hc : q.ch.length < q.cap
      · simp only [hc, if_true, List.mem_singleton, Prod.mk.injEq, and_true] at h
        exact ⟨h, hid, hc⟩
      · simp [hc] at h

theorem inMemory_enqueue_rejected (q q2 : InMemoryQueue) (ctx : Context) (job : queue.Job)
    (err : Error) (h : (q2, some err) ∈ q.Enqueue ctx job) : q2 = q := by
  unfold InMemoryQueue.Enqueue at h
  by_cases hid : job.ExecutionID = ""
  · simp only [hid, if_true, List.mem_singleton, Prod.mk.injEq] at h
    exact h.1
  · rw [if_neg hid, List.mem_append] at h
    rcases h with h | h
    · by_cases hd : ctx.Done = true
      · simp only [hd, if_true, List.mem_singleton, Prod.mk.injEq] at h
        exact h.1
      · simp [hd] at h
    · by_cases hc : q.ch.length < q.cap
      · simp [hc] at h
      · simp [hc] at h

theorem inMemory_enqueue_free (q : InMemoryQueue) (ctx : Context) (job : queue.Job)
    (hid : job.ExecutionID ≠ "") (hctx : ctx.Done = false) (hroom : q.ch.length < q.cap) :
    q.Enqueue ctx job = [({ q with ch := q.ch ++ [job] }, none)] := by
  simp [InMemoryQueue.Enqueue, hid, hctx, hroom]

/-! ## Properties of CreateExecutionAndEnqueue -/

/-- C13: for parameters with non-empty userId, language (no catalog is
consulted) and code and a positive timeoutMs, a generated id that is not empty
and not stored, and a non-zero clock value, in every run in which the
producer accepts the job CreateExecutionAndEnqueue returns no error and the
execution NewExecution built, with status queued and the generated id; the
repository then returns that execution for the id; and every result of the call
carries the queue left by one Enqueue call of the job with the execution's id,
language and userId. On the in-memory queue an accepted job is added once at
the end of the buffer, and with room in the buffer and a live context that is
the only result. -/
theorem create_and_enqueue_accepted {Q : Type} (s : service.executionService Q)
    (repo : ExecutionRepository) (q q2 : Q) (ctx : Context)
    (params : service.CreateExecutionParams) (execID : String)
    (huser : params.UserID ≠ "") (hlang : params.Language ≠ "") (hcode : params.Code ≠ "")
    (htimeout : 0 < params.TimeoutMs) (hgen : s.idGenerator () = (execID, none))
    (hid : execID ≠ "") (hfresh : repo.store.lookup execID = none)
    (hnow : (s.now ()).IsZero = false)
    (hacc : (q2, none) ∈ s.producer.Enqueue q ctx
      { ExecutionID := execID, Language := params.Language, UserID := params.UserID }) :
    (∃ (exec : Execution) (repo2 : ExecutionRepository),
      NewExecution execID params.Language params.Code params.Stdin params.TimeoutMs
        params.UserID (s.now ()) = (some exec, none) ∧
      exec.Status = ExecutionStatusQueued ∧ exec.ID = execID ∧
      (repo2, q2, some exec, none) ∈ service.CreateExecutionAndEnqueue s repo q ctx params ∧
      repo2.GetExecutionByID execID = (some exec, none) ∧
      (∀ out ∈ service.CreateExecutionAndEnqueue s repo q ctx params,
        out.1 = repo2 ∧
        ∃ r ∈ s.producer.Enqueue q ctx
            { ExecutionID := exec.ID, Language := exec.Language, UserID := exec.UserID },
          out.2.1 = r.1 ∧ out.2.2.2 = r.2)) ∧
    (∀ (qm qm2 : InMemoryQueue) (ctx2 : Context) (job : queue.Job),
      (qm2, none) ∈ qm.Enqueue ctx2 job → qm2 = { qm with ch := qm.ch ++ [job] }) ∧
    (∀ (qm : InMemoryQueue) (ctx2 : Context) (job : queue.Job),
      job.ExecutionID ≠ "" → ctx2.Done = false → qm.ch.length < qm.cap →
      qm.Enqueue ctx2 job = [({ qm with ch := qm.ch ++ [job] }, none)]) := by
  have hnew := newExecution_ok execID params.Language params.Code params.Stdin
    params.UserID params.TimeoutMs (s.now ()) hid hlang hcode huser htimeout hnow
  have heq := createExecutionAndEnqueue_valid s repo q ctx params execID huser hlang hcode
    htimeout hgen hid hfresh hnow
  refine ⟨⟨_, ⟨mapSet repo.store execID (some
      { ID := execID
        Language := params.Language
        Code := params.Code
        Stdin := params.Stdin
        TimeoutMs := params.TimeoutMs
        Status := ExecutionStatusQueued
        Stdout := ""
        Stderr := ""
        ExitCode := none
        CreatedAt := (s.now ()).UTC
        StartedAt := none
        FinishedAt := none
        UserID := params.UserID })⟩, hnew, rfl, rfl, ?_, ?_, ?_⟩, ?_, inMemory_enqueue_free⟩
  · rw [heq, List.mem_map]
    exact ⟨(q2, none), hacc, rfl⟩
  · simp [ExecutionRepository.GetExecutionByID, lookup_mapSet_same, cloneExecution_some]
  · intro out hout
    rw [heq, List.mem_map] at hout
    obtain ⟨r, hr, rfl⟩ := hout
    exact ⟨rfl, r, hr, rfl, rfl⟩
  · intro qm qm2 ctx2 job h
    exact (inMemory_enqueue_accepted qm qm2 ctx2 job h).1

theorem create_and_enqueue_accepted_witness :
    service.CreateExecutionAndEnqueue sampleService NewExecutionRepository sampleQueue
        Context.Background sampleParams =
      [(⟨[("e1", some sampleCreated)]⟩,
        { sampleQueue with ch := [{ ExecutionID := "e1", Language := "cobol", UserID := "u1" }] },
        some sampleCreated, none)] ∧
    ∃ (exec : Execution) (repo2 : ExecutionRepository),
      NewExecution "e1" sampleParams.Language sampleParams.Code sampleParams.Stdin
        sampleParams.TimeoutMs sampleParams.UserID (sampleService.now ()) = (some exec, none) ∧
      exec.Status = ExecutionStatusQueued ∧ exec.ID = "e1" ∧
      (repo2, { sampleQueue with
          ch := [{ ExecutionID := "e1", Language := "cobol", UserID := "u1" }] },
        some exec, none) ∈
        service.CreateExecutionAndEnqueue sampleService NewExecutionRepository sampleQueue
          Context.Background sampleParams ∧
      repo2.GetExecutionByID "e1" = (some exec, none) ∧
      (∀ out ∈ service.CreateExecutionAndEnqueue sampleService NewExecutionRepository
          sampleQueue Context.Background sampleParams,
        out.1 = repo2 ∧
        ∃ r ∈ sampleService.producer.Enqueue sampleQueue Context.Background
            { ExecutionID := exec.ID, Language := exec.Language, UserID := exec.UserID },
          out.2.1 = r.1 ∧ out.2.2.2 = r.2) :=
  ⟨by decide,
   (create_and_enqueue_accepted sampleService NewExecutionRepository sampleQueue
      { sampleQueue with ch := [{ ExecutionID := "e1", Language := "cobol", UserID := "u1" }] }
      Context.Background sampleParams "e1" (by decide) (by decide) (by decide) (by decide)
      rfl (by decide) (by decide) (by decide) (by decide)).1⟩

theorem redis_enqueue_listClient_rejected (json : redisqueue.JSON) (key : String)
    (s : List (String × List String)) (ctx : Context) (job : queue.Job)
    (h : (redisqueue.producer.Enqueue json ⟨redisqueue.listClient, key⟩ s ctx job).2 ≠ none) :
    (redisqueue.producer.Enqueue json ⟨redisqueue.listClient, key⟩ s ctx job).1 = s := by
  unfold redisqueue.producer.Enqueue at h ⊢
  by_cases hid : job.ExecutionID = ""
  · simp [hid]
  · simp only [hid, if_false] at h ⊢
    rcases hm : json.Marshal
      { ExecutionID := job.ExecutionID, Language := job.Language, UserID := job.UserID } with
      ⟨data, _ | err⟩
    · rw [hm] at h
      simp [redisqueue.listClient] at h
    · rfl

/-- C14: for valid parameters, a generated id that is not empty and not stored
and a non-zero clock value, in every run in which the producer's Enqueue
returns an error CreateExecutionAndEnqueue returns that error and no
execution, while the repository holds the new execution under the generated id
in status queued: the record is not rolled back. The queue is what the failed
Enqueue left; a failed Enqueue of the in-memory queue, and of the Redis
producer over a server without faults, leaves the queue as it was, so no job
for the execution is in it. -/
theorem create_and_enqueue_rejected {Q : Type} (s : service.executionService Q)
    (repo : ExecutionRepository) (q q2 : Q) (ctx : Context)
    (params : service.CreateExecutionParams) (execID : String) (err : Error)
    (huser : params.UserID ≠ "") (hlang : params.Language ≠ "") (hcode : params.Code ≠ "")
    (htimeout : 0 < params.TimeoutMs) (hgen : s.idGenerator () = (execID, none))
    (hid : execID ≠ "") (hfresh : repo.store.lookup execID = none)
    (hnow : (s.now ()).IsZero = false)
    (hrej : (q2, some err) ∈ s.producer.Enqueue q ctx
      { ExecutionID := execID, Language := params.Language, UserID := params.UserID }) :
    (∃ (exec : Execution) (repo2 : ExecutionRepository),
      NewExecution execID params.Language params.Code params.Stdin params.TimeoutMs
        params.UserID (s.now ()) = (some exec, none) ∧
      exec.Status = ExecutionStatusQueued ∧ exec.ID = execID ∧
      (repo2, q2, none, some err) ∈ service.CreateExecutionAndEnqueue s repo q ctx params ∧
      repo2.GetExecutionByID execID = (some exec, none) ∧
      (∀ out ∈ service.CreateExecutionAndEnqueue s repo q ctx params,
        out.1 = repo2 ∧ (out.2.2.2 ≠ none → out.2.2.1 = none))) ∧
    (∀ (qm qm2 : InMemoryQueue) (ctx2 : Context) (job : queue.Job) (err2 : Error),
      (qm2, some err2) ∈ qm.Enqueue ctx2 job → qm2 = qm) ∧
    (∀ (json : redisqueue.JSON) (key : String) (srv : List (String × List String))
      (ctx2 : Context) (job : queue.Job),
      (redisqueue.producer.Enqueue json ⟨redisqueue.listClient, key⟩ srv ctx2 job).2 ≠ none →
      (redisqueue.producer.Enqueue json ⟨redisqueue.listClient, key⟩ srv ctx2 job).1 = srv) := by
  have hnew := newExecution_ok execID params.Language params.Code params.Stdin
    params.UserID params.TimeoutMs (s.now ()) hid hlang hcode huser htimeout hnow
  have heq := createExecutionAndEnqueue_valid s repo q ctx params execID huser hlang hcode
    htimeout hgen hid hfresh hnow
  refine ⟨⟨_, ⟨mapSet repo.store execID (some
      { ID := execID
        Language := params.Language
        Code := params.Code
        Stdin := params.Stdin
        TimeoutMs := params.TimeoutMs
        Status := ExecutionStatusQueued
        Stdout := ""
        Stderr := ""
        ExitCode := none
        CreatedAt := (s.now ()).UTC
        StartedAt := none
        FinishedAt := none
        UserID := params.UserID })⟩, hnew, rfl, rfl, ?_, ?_, ?_⟩,
    inMemory_enqueue_rejected, redis_enqueue_listClient_rejected⟩
  · rw [heq, List.mem_map]
    exact ⟨(q2, some err), hrej, rfl⟩
  · simp [ExecutionRepository.GetExecutionByID, lookup_mapSet_same, cloneExecution_some]
  · intro out hout
    rw [heq, List.mem_map] at hout
    obtain ⟨⟨q3, _ | err3⟩, hr, rfl⟩ := hout
    · exact ⟨rfl, fun h => absurd rfl h⟩
    · exact ⟨rfl, fun _ => rfl⟩

theorem create_and_enqueue_rejected_witness :
    service.CreateExecutionAndEnqueue sampleService NewExecutionRepository sampleFullQueue
        sampleCancelled sampleParams =
      [(⟨[("e1", some sampleCreated)]⟩, sampleFullQueue, none,
        some (.sentinel .contextCanceled))] ∧
    ∃ (exec : Execution) (repo2 : ExecutionRepository),
      NewExecution "e1" sampleParams.Language sampleParams.Code sampleParams.Stdin
        sampleParams.TimeoutMs sampleParams.UserID (sampleService.now ()) = (some exec, none) ∧
      exec.Status = ExecutionStatusQueued ∧ exec.ID = "e1" ∧
      (repo2, sampleFullQueue, none, some (.sentinel .contextCanceled)) ∈
        service.CreateExecutionAndEnqueue sampleService NewExecutionRepository sampleFullQueue
          sampleCancelled sampleParams ∧
      repo2.GetExecutionByID "e1" = (some exec, none) ∧
      (∀ out ∈ service.CreateExecutionAndEnqueue sampleService NewExecutionRepository
          sampleFullQueue sampleCancelled sampleParams,
        out.1 = repo2 ∧ (out.2.2.2 ≠ none → out.2.2.1 = none)) :=
  ⟨by decide,
   (create_and_enqueue_rejected sampleService NewExecutionRepository sampleFullQueue
      sampleFullQueue sampleCancelled sampleParams "e1" (.sentinel .contextCanceled)
      (by decide) (by decide) (by decide) (by decide) rfl (by decide) (by decide) (by decide)
      (by decide)).1⟩

/-! ## Properties of the worker loop -/

theorem worker_run_append (now : Nat → Time) (pre rest : List queue.Job) (st : worker.State) :
    worker.run now st (pre ++ rest) =
      match worker.run now st pre with
      | (st1, some err) => (st1, some err)
      | (st1, none) => worker.run now st1 rest := by
  induction pre generalizing st with
  | nil => simp [worker.run]
  | cons job pre ih =>
    simp only [List.cons_append, worker.run]
    rcases hj : worker.handleJob now st job with ⟨st2, _ | err⟩
    · simp only []
      exact ih st2
    · rfl

theorem worker_handleJob_missing (now : Nat → Time) (st : worker.State) (job : queue.Job)
    (h : st.repo.store.lookup job.ExecutionID = none) :
    worker.handleJob now st job = (st, some ErrExecutionNotFound) := by
  simp [worker.handleJob, worker.startJob, getExecutionByID_missing _ _ h]

theorem worker_handleJob_not_queued (now : Nat → Time) (st : worker.State) (job : queue.Job)
    (e : Execution) (h : st.repo.store.lookup job.ExecutionID = some (some e))
    (hs : e.Status ≠ ExecutionStatusQueued) (hnow : (now st.clock).IsZero = false) :
    ∃ msg, worker.handleJob now st job =
      ({ st with clock := st.clock + 1 }, some (.wrap msg ErrInvalidStatusTransition)) := by
  have hp : (e.Status, (Call.markRunning (now st.clock)).target) ∉ allowedPairs := by
    simp only [allowedPairs, Call.target, List.mem_cons, Prod.mk.injEq, List.mem_singleton,
      List.not_mem_nil, or_false]
    rintro (⟨h1, -⟩ | ⟨-, h2⟩ | ⟨-, h2⟩ | ⟨-, h2⟩)
    · exact hs h1
    · exact absurd h2 (by decide)
    · exact absurd h2 (by decide)
    · exact absurd h2 (by decide)
  obtain ⟨msg, hm⟩ := run_of_not_allowed e (.markRunning (now st.clock)) hnow hp
  simp only [Call.run] at hm
  exact ⟨msg, by simp [worker.handleJob, worker.startJob, getExecutionByID_stored _ _ e h, hm]⟩

/-! ### C15 -/

/-- C15 as stated fails: the loop body calls panic on every error. With the
jobs missing, e1 on a repository holding e1 queued, the load of the first job
fails, the worker panics with ErrExecutionNotFound and e1 is never processed:
nothing is printed and e1 is still queued. With the jobs e1, e2 on a repository
holding e1 completed (a duplicate delivery) and e2 queued, the worker panics
with an invalid-transition error and e2 is never processed. -/
theorem worker_continues_counterexample :
    worker.run sampleNow ⟨sampleRepo, 0, []⟩
        [⟨"missing", "python", "u1"⟩, ⟨"e1", "python", "u1"⟩] =
      (⟨sampleRepo, 0, []⟩, some ErrExecutionNotFound) ∧
    (worker.run sampleNow ⟨sampleRepoTwo, 0, []⟩
        [⟨"e1", "python", "u1"⟩, ⟨"e2", "python", "u1"⟩]).1 = ⟨sampleRepoTwo, 1, []⟩ ∧
    failsWith
      (worker.run sampleNow ⟨sampleRepoTwo, 0, []⟩
        [⟨"e1", "python", "u1"⟩, ⟨"e2", "python", "u1"⟩]).2
      .ErrInvalidStatusTransition = true ∧
    (worker.run sampleNow ⟨sampleRepo, 0, []⟩ [⟨"e1", "python", "u1"⟩]).2 = none ∧
    ¬ (∀ (now : Nat → Time) (st : worker.State) (jobs : List queue.Job),
        (∀ n, (now n).IsZero = false) → (worker.run now st jobs).2 = none) := by
  refine ⟨by decide, by decide, by decide, by decide, ?_⟩
  intro h
  have h1 := h sampleNow ⟨sampleRepo, 0, []⟩
    [⟨"missing", "python", "u1"⟩, ⟨"e1", "python", "u1"⟩] (fun n => by
      simp only [sampleNow, Time.IsZero, beq_eq_false_iff_ne, ne_eq]
      omega)
  revert h1
  decide

/-- C15 amended: the worker loop ends at the first per-job error. If the jobs
before a job are handled without error and for that job the load fails (its
execution id is not in the repository) or the transition to running fails (the
stored execution is not queued, as after a duplicate delivery), the worker
panics with that error, ErrExecutionNotFound or an ErrInvalidStatusTransition
error; the repository, the record of the failing job included, and the printed
lines are as the earlier jobs left them, whatever jobs follow: no later job is
processed. -/
theorem worker_stops_at_failing_job (now : Nat → Time) (st st1 : worker.State)
    (pre post : List queue.Job) (job : queue.Job)
    (hpre : worker.run now st pre = (st1, none))
    (hnow : (now st1.clock).IsZero = false)
    (hfail : st1.repo.store.lookup job.ExecutionID = none ∨
      ∃ e : Execution, st1.repo.store.lookup job.ExecutionID = some (some e) ∧
        e.Status ≠ ExecutionStatusQueued) :
    (st1.repo.store.lookup job.ExecutionID = none →
      worker.run now st (pre ++ job :: post) = (st1, some ErrExecutionNotFound)) ∧
    ((∃ e : Execution, st1.repo.store.lookup job.ExecutionID = some (some e) ∧
        e.Status ≠ ExecutionStatusQueued) →
      (worker.run now st (pre ++ job :: post)).1 = { st1 with clock := st1.clock + 1 } ∧
      failsWith (worker.run now st (pre ++ job :: post)).2 .ErrInvalidStatusTransition = true) ∧
    (worker.run now st (pre ++ job :: post)).2 ≠ none ∧
    (worker.run now st (pre ++ job :: post)).1.repo = st1.repo ∧
    (worker.run now st (pre ++ job :: post)).1.printed = st1.printed := by
  have hrun : worker.run now st (pre ++ job :: post) =
      match worker.handleJob now st1 job with
      | (st2, some err) => (st2, some err)
      | (st2, none) => worker.run now st2 post := by
    rw [worker_run_append, hpre]
    simp only [worker.run]
  have hmiss : st1.repo.store.lookup job.ExecutionID = none →
      worker.run now st (pre ++ job :: post) = (st1, some ErrExecutionNotFound) := by
    intro h
    rw [hrun, worker_handleJob_missing now st1 job h]
  have hrej : (∃ e : Execution, st1.repo.store.lookup job.ExecutionID = some (some e) ∧
        e.Status ≠ ExecutionStatusQueued) →
      ∃ msg, worker.run now st (pre ++ job :: post) =
        ({ st1 with clock := st1.clock + 1 }, some (.wrap msg ErrInvalidStatusTransition)) := by
    rintro ⟨e, h, hs⟩
    obtain ⟨msg, hm⟩ := worker_handleJob_not_queued now st1 job e h hs hnow
    exact ⟨msg, by rw [hrun, hm]⟩
  refine ⟨hmiss, ?_, ?_⟩
  · intro h
    obtain ⟨msg, hm⟩ := hrej h
    rw [hm]
    exact ⟨rfl, rfl⟩
  · rcases hfail with h | h
    · rw [hmiss h]
      exact ⟨by simp, rfl, rfl⟩
    · obtain ⟨msg, hm⟩ := hrej h
      rw [hm]
      exact ⟨by simp, rfl, rfl⟩

theorem worker_stops_at_failing_job_witness :
    worker.run sampleNow ⟨sampleRepo, 0, []⟩
        ([] ++ (⟨"missing", "python", "u1"⟩ : queue.Job) :: [⟨"e1", "python", "u1"⟩]) =
      (⟨sampleRepo, 0, []⟩, some ErrExecutionNotFound) ∧
    ((worker.run sampleNow ⟨sampleRepoTwo, 0, []⟩
        ([] ++ (⟨"e1", "python", "u1"⟩ : queue.Job) :: [⟨"e2", "python", "u1"⟩])).1 =
        { (⟨sampleRepoTwo, 0, []⟩ : worker.State) with clock := 0 + 1 } ∧
      failsWith (worker.run sampleNow ⟨sampleRepoTwo, 0, []⟩
        ([] ++ (⟨"e1", "python", "u1"⟩ : queue.Job) :: [⟨"e2", "python", "u1"⟩])).2
        .ErrInvalidStatusTransition = true) :=
  ⟨(worker_stops_at_failing_job sampleNow ⟨sampleRepo, 0, []⟩ ⟨sampleRepo, 0, []⟩ []
      [⟨"e1", "python", "u1"⟩] ⟨"missing", "python", "u1"⟩ rfl (by decide)
      (Or.inl (by decide))).1 (by decide),
   (worker_stops_at_failing_job sampleNow ⟨sampleRepoTwo, 0, []⟩ ⟨sampleRepoTwo, 0, []⟩ []
      [⟨"e2", "python", "u1"⟩] ⟨"e1", "python", "u1"⟩ rfl (by decide)
      (Or.inr ⟨sampleCompleted, by decide, by decide⟩)).2.1
      ⟨sampleCompleted, by decide, by decide⟩⟩

theorem worker_startJob_queued (now : Nat → Time) (st : worker.State) (job : queue.Job)
    (e : Execution) (h : st.repo.store.lookup job.ExecutionID = some (some e))
    (hid : e.ID = job.ExecutionID) (hq : e.Status = ExecutionStatusQueued)
    (hnow : (now st.clock).IsZero = false) :
    worker.startJob now st job =
      ({ st with
          clock := st.clock + 1
          repo := ⟨mapSet st.repo.store job.ExecutionID
            (some { e with
              Status := ExecutionStatusRunning
              StartedAt := some (now st.clock).UTC })⟩ },
        .ok { e with Status := ExecutionStatusRunning, StartedAt := some (now st.clock).UTC }) := by
  simp [worker.startJob, getExecutionByID_stored _ _ e h, markRunning_ok e _ hnow hq,
    ExecutionRepository.UpdateExecution, hid, h, cloneExecution_some]

theorem worker_finishJob_running (now : Nat → Time) (st : worker.State) (job : queue.Job)
    (stored : Option Execution) (exec : Execution)
    (h : st.repo.store.lookup job.ExecutionID = some stored)
    (hid : exec.ID = job.ExecutionID) (hr : exec.Status = ExecutionStatusRunning)
    (hnow : (now st.clock).IsZero = false) :
    worker.finishJob now st job exec =
      ({ st with
          clock := st.clock + 1
          printed := st.printed ++ ["⚙️ Processing job " ++ job.ExecutionID ++ "\n",
            "✅ Completed job " ++ job.ExecutionID ++ "\n"]
          repo := ⟨mapSet st.repo.store job.ExecutionID
            (some { exec with
              Status := ExecutionStatusCompleted
              Stdout := "Fake output for " ++ exec.Language ++ " code"
              Stderr := ""
              ExitCode := some 0
              FinishedAt := some (now st.clock).UTC })⟩ }, none) := by
  simp [worker.finishJob, markCompleted_ok exec _ _ _ _ hnow hr,
    ExecutionRepository.UpdateExecution, hid, h, cloneExecution_some]

theorem mapSet_mapSet {α : Type} (m : List (String × α)) (k : String) (v w : α) :
    mapSet (mapSet m k v) k w = mapSet m k w := by
  induction m with
  | nil => simp [mapSet]
  | cons p m ih =>
    obtain ⟨k2, v2⟩ := p
    by_cases h : k2 = k
    · simp [mapSet, h]
    · simp [mapSet, h, ih]

/-! ### C16 -/

theorem worker_handleJob_queued (now : Nat → Time) (st : worker.State) (job : queue.Job)
    (e : Execution) (h : st.repo.store.lookup job.ExecutionID = some (some e))
    (hid : e.ID = job.ExecutionID) (hq : e.Status = ExecutionStatusQueued)
    (hnow1 : (now st.clock).IsZero = false) (hnow2 : (now (st.clock + 1)).IsZero = false) :
    ∃ (st1 : worker.State) (running : Execution),
      worker.startJob now st job = (st1, .ok running) ∧
      running =
        { e with Status := ExecutionStatusRunning, StartedAt := some (now st.clock).UTC } ∧
      st1.repo.GetExecutionByID job.ExecutionID = (some running, none) ∧
      worker.handleJob now st job = worker.finishJob now st1 job running ∧
      (worker.handleJob now st job).2 = none ∧
      (worker.handleJob now st job).1.repo.GetExecutionByID job.ExecutionID =
        (some
          { e with
            Status := ExecutionStatusCompleted
            Stdout := "Fake output for " ++ e.Language ++ " code"
            Stderr := ""
            ExitCode := some 0
            StartedAt := some (now st.clock).UTC
            FinishedAt := some (now (st.clock + 1)).UTC }, none) := by
  have hstart := worker_startJob_queued now st job e h hid hq hnow1
  have hhandle : worker.handleJob now st job =
      worker.finishJob now
        { st with
          clock := st.clock + 1
          repo := ⟨mapSet st.repo.store job.ExecutionID
            (some { e with
              Status := ExecutionStatusRunning
              StartedAt := some (now st.clock).UTC })⟩ } job
        { e with Status := ExecutionStatusRunning, StartedAt := some (now st.clock).UTC } := by
    simp only [worker.handleJob, hstart]
  have hfinish := worker_finishJob_running now
    { st with
      clock := st.clock + 1
      repo := ⟨mapSet st.repo.store job.ExecutionID
        (some { e with
          Status := ExecutionStatusRunning
          StartedAt := some (now st.clock).UTC })⟩ } job
    (some { e with Status := ExecutionStatusRunning, StartedAt := some (now st.clock).UTC })
    { e with Status := ExecutionStatusRunning, StartedAt := some (now st.clock).UTC }
    (lookup_mapSet_same _ _ _) hid rfl hnow2
  refine ⟨_, _, hstart, rfl, ?_, hhandle, ?_, ?_⟩
  · simp [ExecutionRepository.GetExecutionByID, lookup_mapSet_same, cloneExecution_some]
  · rw [hhandle, hfinish]
  · rw [hhandle, hfinish]
    simp [ExecutionRepository.GetExecutionByID, lookup_mapSet_same, cloneExecution_some]

/-- C16 on the code: the worker's loop body runs no program. For the stored
queued execution e1 with the code print(1) it persists completed with the
stdout "Fake output for python code", not the output of the program; for e3,
whose program exits with code 3, and e4, whose program never ends, it persists
completed with exit code 0 as well, not failed and not timed_out. For every
job whose execution is stored in status queued the record is persisted as
running with startedAt set and then as completed with that fixed stdout, empty
stderr and exit code 0. -/
theorem worker_stores_fake_output :
    worker.handleJob sampleNow ⟨sampleRepo, 0, []⟩ ⟨"e1", "python", "u1"⟩ =
      (⟨⟨[("e1", some
          { sampleQueued with
            Status := ExecutionStatusCompleted
            Stdout := "Fake output for python code"
            Stderr := ""
            ExitCode := some 0
            StartedAt := some ⟨1000, none⟩
            FinishedAt := some ⟨1001, none⟩ })]⟩, 2,
        ["⚙️ Processing job e1\n", "✅ Completed job e1\n"]⟩, none) ∧
    (worker.run sampleNow ⟨sampleProgramsRepo, 0, []⟩
        [⟨"e3", "python", "u1"⟩, ⟨"e4", "python", "u1"⟩]).1.repo =
      ⟨[("e3", some
          { sampleQueued with
            ID := "e3"
            Code := "import sys; sys.exit(3)"
            Status := ExecutionStatusCompleted
            Stdout := "Fake output for python code"
            Stderr := ""
            ExitCode := some 0
            StartedAt := some ⟨1000, none⟩
            FinishedAt := some ⟨1001, none⟩ }),
        ("e4", some
          { sampleQueued with
            ID := "e4"
            Code := "while True: pass"
            Status := ExecutionStatusCompleted
            Stdout := "Fake output for python code"
            Stderr := ""
            ExitCode := some 0
            StartedAt := some ⟨1002, none⟩
            FinishedAt := some ⟨1003, none⟩ })]⟩ ∧
    (∀ (now : Nat → Time) (st : worker.State) (job : queue.Job) (e : Execution),
      st.repo.store.lookup job.ExecutionID = some (some e) → e.ID = job.ExecutionID →
      e.Status = ExecutionStatusQueued →
      (now st.clock).IsZero = false → (now (st.clock + 1)).IsZero = false →
      ∃ (st1 : worker.State) (running : Execution),
        worker.startJob now st job = (st1, .ok running) ∧
        running =
          { e with Status := ExecutionStatusRunning, StartedAt := some (now st.clock).UTC } ∧
        st1.repo.GetExecutionByID job.ExecutionID = (some running, none) ∧
        worker.handleJob now st job = worker.finishJob now st1 job running ∧
        (worker.handleJob now st job).2 = none ∧
        (worker.handleJob now st job).1.repo.GetExecutionByID job.ExecutionID =
          (some
            { e with
              Status := ExecutionStatusCompleted
              Stdout := "Fake output for " ++ e.Language ++ " code"
              Stderr := ""
              ExitCode := some 0
              StartedAt := some (now st.clock).UTC
              FinishedAt := some (now (st.clock + 1)).UTC }, none)) :=
  ⟨by decide, by decide, worker_handleJob_queued⟩

/-! ## Properties of the queues -/

theorem inMemory_enqueueAll (jobs : List queue.Job) (q : InMemoryQueue) (ctx : Context)
    (hctx : ctx.Done = false) (hids : ∀ j ∈ jobs, j.ExecutionID ≠ "")
    (hroom : q.ch.length + jobs.length ≤ q.cap) :
    queue.enqueueAll InMemoryQueue.asProducer ctx q jobs =
      [({ q with ch := q.ch ++ jobs }, jobs.map fun _ => none)] := by
  induction jobs generalizing q with
  | nil => simp [queue.enqueueAll]
  | cons j js ih =>
    have hj : j.ExecutionID ≠ "" := hids j (List.mem_cons_self _ _)
    have hlen : q.ch.length < q.cap := by
      simp only [List.length_cons] at hroom
      omega
    have hrest : ({ q with ch := q.ch ++ [j] } : InMemoryQueue).ch.length + js.length ≤
        ({ q with ch := q.ch ++ [j] } : InMemoryQueue).cap := by
      simp only [List.length_append, List.length_cons, List.length_nil] at hroom ⊢
      omega
    simp only [queue.enqueueAll, InMemoryQueue.asProducer, inMemory_enqueue_free q ctx j hj hctx hlen,
      List.flatMap_cons, List.flatMap_nil, List.append_nil]
    have := ih { q with ch := q.ch ++ [j] } (fun x hx => hids x (List.mem_cons_of_mem _ hx)) hrest
    simp only [InMemoryQueue.asProducer] at this
    rw [this]
    simp

theorem inMemory_consumeLoop (jobs : List queue.Job) (q : InMemoryQueue) (ctx : Context)
    (out : List queue.Job) (fuel : Nat) (hctx : ctx.Done = false) (hq : q.ch = jobs)
    (hfuel : jobs.length ≤ fuel) :
    InMemoryQueue.consumeLoop ctx fuel q out = [({ q with ch := [] }, out ++ jobs, false)] := by
  induction jobs generalizing q out fuel with
  | nil =>
    obtain ⟨ch, cap⟩ := q
    simp only at hq
    subst hq
    cases fuel with
    | zero => simp [InMemoryQueue.consumeLoop]
    | succ n => simp [InMemoryQueue.consumeLoop, hctx]
  | cons j js ih =>
    cases fuel with
    | zero => simp at hfuel
    | succ n =>
      have hn : js.length ≤ n := by
        simp only [List.length_cons] at hfuel
        omega
      rw [InMemoryQueue.consumeLoop]
      simp only [hctx, hq, Bool.false_eq_true, if_false, List.nil_append]
      rw [ih { q with ch := js } (out ++ [j]) n rfl hn]
      simp

theorem redis_enqueue_ok (json : redisqueue.JSON) (key : String)
    (s : List (String × List String)) (ctx : Context) (j : queue.Job)
    (hid : j.ExecutionID ≠ "") (hm : (json.Marshal (redisqueue.payloadOf j)).2 = none) :
    redisqueue.producer.Enqueue json ⟨redisqueue.listClient, key⟩ s ctx j =
      (mapSet s key ((json.Marshal (redisqueue.payloadOf j)).1 :: (s.lookup key).getD []),
        none) := by
  unfold redisqueue.producer.Enqueue
  rw [if_neg hid]
  rcases hj : json.Marshal (redisqueue.payloadOf j) with ⟨data, err⟩
  rw [hj] at hm
  simp only at hm
  subst hm
  simp only [redisqueue.payloadOf] at hj
  simp [hj, redisqueue.listClient]

theorem redis_enqueueAll (json : redisqueue.JSON) (key : String) (jobs : List queue.Job)
    (s : List (String × List String)) (ctx : Context)
    (hids : ∀ j ∈ jobs, j.ExecutionID ≠ "")
    (hm : ∀ j ∈ jobs, (json.Marshal (redisqueue.payloadOf j)).2 = none) :
    ∃ s1, queue.enqueueAll (redisqueue.producer.asProducer json ⟨redisqueue.listClient, key⟩)
        ctx s jobs = [(s1, jobs.map fun _ => none)] ∧
      (s1.lookup key).getD [] =
        (jobs.map fun j => (json.Marshal (redisqueue.payloadOf j)).1).reverse ++
          (s.lookup key).getD [] := by
  induction jobs generalizing s with
  | nil => exact ⟨s, by simp [queue.enqueueAll]⟩
  | cons j js ih =>
    obtain ⟨s1, h1, h2⟩ := ih
      (mapSet s key ((json.Marshal (redisqueue.payloadOf j)).1 :: (s.lookup key).getD []))
      (fun x hx => hids x (List.mem_cons_of_mem _ hx))
      (fun x hx => hm x (List.mem_cons_of_mem _ hx))
    refine ⟨s1, ?_, ?_⟩
    · simp only [queue.enqueueAll, redisqueue.producer.asProducer,
        redis_enqueue_ok json key s ctx j (hids j (List.mem_cons_self _ _))
          (hm j (List.mem_cons_self _ _)),
        List.flatMap_cons, List.flatMap_nil, List.append_nil]
      simp only [redisqueue.producer.asProducer] at h1
      rw [h1]
      simp
    · rw [h2, lookup_mapSet_same]
      simp

theorem redis_consume_empty (json : redisqueue.JSON) (c : redisqueue.consumer (List (String × List String)))
    (ctx : Context) (fuel : Nat) (s : List (String × List String)) (out : List queue.Job)
    (hc : c.client = redisqueue.listClient) (hctx : ctx.err = none)
    (h : (s.lookup c.key).getD [] = []) :
    redisqueue.consumer.consumeLoop json c ctx fuel s out = (s, out, false) := by
  induction fuel with
  | zero => rfl
  | succ n ih =>
    rw [redisqueue.consumer.consumeLoop]
    simp [hctx, hc, redisqueue.listClient, h, ih]

theorem redis_consume (json : redisqueue.JSON) (c : redisqueue.consumer (List (String × List String)))
    (ctx : Context) (jobs : List queue.Job) (fuel : Nat) (s : List (String × List String))
    (out : List queue.Job) (hc : c.client = redisqueue.listClient) (hctx : ctx.err = none)
    (hl : (s.lookup c.key).getD [] =
      (jobs.map fun j => (json.Marshal (redisqueue.payloadOf j)).1).reverse)
    (hun : ∀ j ∈ jobs, json.Unmarshal (json.Marshal (redisqueue.payloadOf j)).1 =
      (redisqueue.payloadOf j, none))
    (hfuel : jobs.length ≤ fuel) :
    ∃ s2, redisqueue.consumer.consumeLoop json c ctx fuel s out = (s2, out ++ jobs, false) ∧
      (s2.lookup c.key).getD [] = [] := by
  induction jobs generalizing fuel s out with
  | nil =>
    refine ⟨s, ?_, by simpa using hl⟩
    rw [redis_consume_empty json c ctx fuel s out hc hctx (by simpa using hl)]
    simp
  | cons j js ih =>
    cases fuel with
    | zero => simp at hfuel
    | succ n =>
      have hn : js.length ≤ n := by
        simp only [List.length_cons] at hfuel
        omega
      have hl2 : (s.lookup c.key).getD [] =
          (js.map fun j => (json.Marshal (redisqueue.payloadOf j)).1).reverse ++
            [(json.Marshal (redisqueue.payloadOf j)).1] := by
        rw [hl]
        simp
      obtain ⟨s2, h1, h2⟩ := ih n
        (mapSet s c.key (js.map fun j => (json.Marshal (redisqueue.payloadOf j)).1).reverse)
        (out ++ [j]) (by rw [lookup_mapSet_same]; rfl)
        (fun x hx => hun x (List.mem_cons_of_mem _ hx)) hn
      refine ⟨s2, ?_, h2⟩
      rw [redisqueue.consumer.consumeLoop]
      have hj := hun j (List.mem_cons_self _ _)
      simp only [hctx, hc, redisqueue.listClient, hl2, ne_eq, not_true_eq_false, if_false,
        List.getLast?_concat, List.dropLast_concat, List.length_cons, List.length_nil,
        List.getD_cons_succ, List.getD_cons_zero, hj]
      have hjob : ({ ExecutionID := (redisqueue.payloadOf j).ExecutionID
                     Language := (redisqueue.payloadOf j).Language
                     UserID := (redisqueue.payloadOf j).UserID } : queue.Job) = j := rfl
      rw [hjob, h1]
      simp

/-! ### C17 -/

/-- C17: for a job whose executionId is empty, whatever its language and
userId, Enqueue of the in-memory queue has one possible result, an error with
the queue as it was (nothing is sent on the channel), and Enqueue of the Redis
producer returns an error with the server as it was (no command is issued),
for every JSON encoding and every client. -/
theorem enqueue_empty_id_rejected {S : Type} (qm : InMemoryQueue) (json : redisqueue.JSON)
    (p : redisqueue.producer S) (s : S) (ctx : Context) (job : queue.Job)
    (h : job.ExecutionID = "") :
    qm.Enqueue ctx job = [(qm, some (.plain "execution id is empty"))] ∧
    redisqueue.producer.Enqueue json p s ctx job =
      (s, some (.plain "execution id is required")) := by
  constructor
  · simp [InMemoryQueue.Enqueue, h]
  · simp [redisqueue.producer.Enqueue, h]

theorem enqueue_empty_id_rejected_witness :
    sampleQueue.Enqueue Context.Background ⟨"", "python", "u1"⟩ =
      [(sampleQueue, some (.plain "execution id is empty"))] ∧
    redisqueue.producer.Enqueue sampleJSON ⟨redisqueue.listClient, "queue:executions"⟩
        [("queue:executions", ["e1|python|u1"])] Context.Background ⟨"", "python", "u1"⟩ =
      ([("queue:executions", ["e1|python|u1"])], some (.plain "execution id is required")) :=
  enqueue_empty_id_rejected sampleQueue sampleJSON ⟨redisqueue.listClient, "queue:executions"⟩
    [("queue:executions", ["e1|python|u1"])] Context.Background ⟨"", "python", "u1"⟩ rfl

/-! ### C18 -/

/-- C18, FIFO per producer: for jobs with non-empty executionIds enqueued one
after another by one producer under a live context, (in-memory backend) into
an empty queue whose buffer holds them all, every Enqueue returns nil and the
consumer goroutine, given at least as many loop turns as there are jobs, hands
over exactly those jobs in that order and empties the queue; (durable backend)
onto an empty list of a server without faults, with an encoding that decodes
the payload of each of these jobs back to itself, every Enqueue returns nil
and the consumer goroutine on the same key hands over exactly those jobs in
that order and empties the list. The jobs handed over equal the jobs enqueued,
empty language or userId included. -/
theorem queue_fifo_per_producer (jobs : List queue.Job) (q : InMemoryQueue)
    (json : redisqueue.JSON) (key : String) (popTimeout : Int)
    (srv : List (String × List String)) (ctx : Context) (fuel : Nat)
    (hids : ∀ j ∈ jobs, j.ExecutionID ≠ "") (hctx : ctx.err = none)
    (hempty : q.ch = []) (hcap : jobs.length ≤ q.cap)
    (hsrv : (srv.lookup key).getD [] = [])
    (hjson : ∀ j ∈ jobs, (json.Marshal (redisqueue.payloadOf j)).2 = none ∧
      json.Unmarshal (json.Marshal (redisqueue.payloadOf j)).1 = (redisqueue.payloadOf j, none))
    (hfuel : jobs.length ≤ fuel) :
    (∃ q1 : InMemoryQueue,
      queue.enqueueAll InMemoryQueue.asProducer ctx q jobs = [(q1, jobs.map fun _ => none)] ∧
      q1.ch = jobs ∧
      InMemoryQueue.consumeLoop ctx fuel q1 [] = [(q, jobs, false)]) ∧
    (∃ srv1 srv2 : List (String × List String),
      queue.enqueueAll (redisqueue.producer.asProducer json ⟨redisqueue.listClient, key⟩)
        ctx srv jobs = [(srv1, jobs.map fun _ => none)] ∧
      redisqueue.consumer.consumeLoop json ⟨redisqueue.listClient, key, popTimeout⟩ ctx fuel
        srv1 [] = (srv2, jobs, false) ∧
      (srv2.lookup key).getD [] = []) := by
  have hdone : ctx.Done = false := by simp [Context.Done, hctx]
  constructor
  · refine ⟨{ q with ch := q.ch ++ jobs }, ?_, by simp [hempty], ?_⟩
    · exact inMemory_enqueueAll jobs q ctx hdone hids (by simp [hempty, hcap])
    · rw [inMemory_consumeLoop jobs { q with ch := q.ch ++ jobs } ctx [] fuel hdone
        (by simp [hempty]) hfuel]
      obtain ⟨ch, cap⟩ := q
      simp only at hempty
      subst hempty
      simp
  · obtain ⟨srv1, h1, h2⟩ := redis_enqueueAll json key jobs srv ctx hids
      (fun j hj => (hjson j hj).1)
    obtain ⟨srv2, h3, h4⟩ := redis_consume json ⟨redisqueue.listClient, key, popTimeout⟩ ctx
      jobs fuel srv1 [] rfl hctx (by rw [h2, hsrv]; simp) (fun j hj => (hjson j hj).2) hfuel
    exact ⟨srv1, srv2, h1, by simpa using h3, h4⟩

theorem queue_fifo_per_producer_witness :
    (∃ q1 : InMemoryQueue,
      queue.enqueueAll InMemoryQueue.asProducer Context.Background sampleQueue sampleJobs =
        [(q1, sampleJobs.map fun _ => none)] ∧
      q1.ch = sampleJobs ∧
      InMemoryQueue.consumeLoop Context.Background 5 q1 [] =
        [(sampleQueue, sampleJobs, false)]) ∧
    (∃ srv1 srv2 : List (String × List String),
      queue.enqueueAll
        (redisqueue.producer.asProducer sampleJSON ⟨redisqueue.listClient, "queue:executions"⟩)
        Context.Background [] sampleJobs = [(srv1, sampleJobs.map fun _ => none)] ∧
      redisqueue.consumer.consumeLoop sampleJSON
        ⟨redisqueue.listClient, "queue:executions", 5 * redisqueue.Second⟩ Context.Background 5
        srv1 [] = (srv2, sampleJobs, false) ∧
      (srv2.lookup "queue:executions").getD [] = []) :=
  queue_fifo_per_producer sampleJobs sampleQueue sampleJSON "queue:executions"
    (5 * redisqueue.Second) [] Context.Background 5 (by decide) rfl rfl (by decide) rfl
    (by decide) (by decide)

/-! ### C19 -/

/-- C19 on the code: with a cancelled context and room in the buffer both
cases of the select in the in-memory Enqueue are ready, so besides returning
the cancellation error with the queue as it was, the call may send the job and
return nil. On the empty sample queue with the cancelled sample context these
are the two possible results. It is only when the buffer is full that every
run returns the cancellation error and adds nothing. -/
theorem enqueue_cancelled_may_send :
    sampleQueue.Enqueue sampleCancelled ⟨"e1", "python", "u1"⟩ =
      [(sampleQueue, some (.sentinel .contextCanceled)),
        ({ sampleQueue with ch := [⟨"e1", "python", "u1"⟩] }, none)] ∧
    ¬ (∀ (q : InMemoryQueue) (ctx : Context) (job : queue.Job),
        job.ExecutionID ≠ "" → ctx.Done = true →
        ∀ r ∈ q.Enqueue ctx job, r = (q, ctx.err)) ∧
    (∀ (q : InMemoryQueue) (ctx : Context) (job : queue.Job),
      job.ExecutionID ≠ "" → ctx.Done = true → q.ch.length < q.cap →
      q.Enqueue ctx job = [(q, ctx.err), ({ q with ch := q.ch ++ [job] }, none)]) ∧
    (∀ (q : InMemoryQueue) (ctx : Context) (job : queue.Job),
      job.ExecutionID ≠ "" → ctx.Done = true → ¬ q.ch.length < q.cap →
      q.Enqueue ctx job = [(q, ctx.err)]) := by
  refine ⟨by decide, ?_, ?_, ?_⟩
  · intro h
    have h1 := h sampleQueue sampleCancelled ⟨"e1", "python", "u1"⟩ (by decide) (by decide)
      ({ sampleQueue with ch := [⟨"e1", "python", "u1"⟩] }, none) (by decide)
    revert h1
    decide
  · intro q ctx job hid hd hroom
    simp [InMemoryQueue.Enqueue, hid, hd, hroom]
  · intro q ctx job hid hd hroom
    simp [InMemoryQueue.Enqueue, hid, hd, hroom]

/-! ## Properties of the HTTP error mapping -/

/-! ### C20 -/

/-- C20 as stated fails: the switch of writeServiceError has no case for
domain.ErrInvalidStatusTransition. The error MarkCompleted returns on a
completed execution wraps it alone and gets the default status 500, not a 4xx
status. The cases are also tried in order: an error that wraps both
ErrInvalidArgument and repository.ErrExecutionNotFound gets 400, not 404. -/
theorem writeServiceError_transition_counterexample :
    (MarkCompleted sampleCompleted "" "" 0 ⟨400, none⟩).2 =
      some (.wrap "invalid execution status transition: current status completed is final"
        ErrInvalidStatusTransition) ∧
    http.writeServiceError
        (.wrap "invalid execution status transition: current status completed is final"
          ErrInvalidStatusTransition) =
      { status := 500, payload := { Error := "internal server error" } } ∧
    ¬ (∀ err : Error, err.Is .ErrInvalidStatusTransition = true →
        400 ≤ (http.writeServiceError err).status ∧ (http.writeServiceError err).status < 500) ∧
    http.writeServiceError
        (.wrapTwo "invalid argument: execution not found" http.ErrInvalidArgument
          ErrExecutionNotFound) =
      { status := 400, payload := { Error := "invalid argument: execution not found" } } ∧
    ¬ (∀ err : Error, err.Is .ErrExecutionNotFound = true →
        (http.writeServiceError err).status = 404) := by
  refine ⟨by decide, by decide, ?_, by decide, ?_⟩
  · intro h
    have h1 := h (.wrap "invalid execution status transition: current status completed is final"
      ErrInvalidStatusTransition) (by decide)
    revert h1
    decide
  · intro h
    have h1 := h (.wrapTwo "invalid argument: execution not found" http.ErrInvalidArgument
      ErrExecutionNotFound) (by decide)
    revert h1
    decide

/-- C20 amended: writeServiceError answers 400, with the text of the error,
for every error that wraps ErrInvalidArgument, ErrInvalidServiceInput or
domain.ErrInvalidExecution; 404, with the text of the error, for every error
that wraps repository.ErrExecutionNotFound and none of those three; and the
default 500 with the text "internal server error" for every error that wraps
none of the four. The switch has no case for domain.ErrInvalidStatusTransition:
an error that wraps it and none of the four, as every error a Mark method
returns for a transition that is not allowed does, gets 500. -/
theorem writeServiceError_status (err : Error) :
    (err.Is .ErrInvalidArgument = true ∨ err.Is .ErrInvalidServiceInput = true ∨
        err.Is .ErrInvalidExecution = true →
      http.writeServiceError err =
        { status := http.StatusBadRequest, payload := { Error := err.errorText } }) ∧
    (err.Is .ErrInvalidArgument = false → err.Is .ErrInvalidServiceInput = false →
      err.Is .ErrInvalidExecution = false → err.Is .ErrExecutionNotFound = true →
      http.writeServiceError err =
        { status := http.StatusNotFound, payload := { Error := err.errorText } }) ∧
    (err.Is .ErrInvalidArgument = false → err.Is .ErrInvalidServiceInput = false →
      err.Is .ErrInvalidExecution = false → err.Is .ErrExecutionNotFound = false →
      http.writeServiceError err =
        { status := http.StatusInternalServerError,
          payload := { Error := "internal server error" } }) ∧
    (∀ (e : Execution) (c : Call), c.time.IsZero = false →
      (e.Status, c.target) ∉ allowedPairs →
      ∃ terr, (c.run e).2 = some terr ∧ terr.Is .ErrInvalidStatusTransition = true ∧
        http.writeServiceError terr =
          { status := http.StatusInternalServerError,
            payload := { Error := "internal server error" } }) := by
  refine ⟨?_, ?_, ?_, ?_⟩
  · rintro (h | h | h)
    · simp [http.writeServiceError, http.writeError, http.writeJSON, h]
    · by_cases h1 : err.Is .ErrInvalidArgument = true
      · simp [http.writeServiceError, http.writeError, http.writeJSON, h1]
      · simp [http.writeServiceError, http.writeError, http.writeJSON, h1, h]
    · by_cases h1 : err.Is .ErrInvalidArgument = true
      · simp [http.writeServiceError, http.writeError, http.writeJSON, h1]
      · by_cases h2 : err.Is .ErrInvalidServiceInput = true
        · simp [http.writeServiceError, http.writeError, http.writeJSON, h1, h2]
        · simp [http.writeServiceError, http.writeError, http.writeJSON, h1, h2, h]
  · intro h1 h2 h3 h4
    simp [http.writeServiceError, http.writeError, http.writeJSON, h1, h2, h3, h4]
  · intro h1 h2 h3 h4
    simp [http.writeServiceError, http.writeError, http.writeJSON, h1, h2, h3, h4]
  · intro e c hz hp
    obtain ⟨msg, hm⟩ := run_of_not_allowed e c hz hp
    refine ⟨.wrap msg ErrInvalidStatusTransition, by rw [hm], rfl, ?_⟩
    simp [http.writeServiceError, http.writeError, http.writeJSON, Error.Is,
      ErrInvalidStatusTransition]

theorem writeServiceError_status_witness :
    http.writeServiceError (.wrap "invalid execution: timeout must be positive"
        ErrInvalidExecution) =
      { status := 400, payload := { Error := "invalid execution: timeout must be positive" } } ∧
    http.writeServiceError
        (.wrapTwo "invalid execution status transition: invalid argument"
          ErrInvalidStatusTransition http.ErrInvalidArgument) =
      { status := 400,
        payload := { Error := "invalid execution status transition: invalid argument" } } ∧
    http.writeServiceError ErrExecutionNotFound =
      { status := 404, payload := { Error := "execution not found" } } ∧
    http.writeServiceError (.plain "execution with id e1 already exists") =
      { status := 500, payload := { Error := "internal server error" } } ∧
    (∃ terr, ((Call.markRunning ⟨250, none⟩).run sampleRunning).2 = some terr ∧
      terr.Is .ErrInvalidStatusTransition = true ∧
      http.writeServiceError terr =
        { status := 500, payload := { Error := "internal server error" } }) :=
  ⟨(writeServiceError_status (.wrap "invalid execution: timeout must be positive"
      ErrInvalidExecution)).1 (Or.inr (Or.inr (by decide))),
   (writeServiceError_status (.wrapTwo "invalid execution status transition: invalid argument"
      ErrInvalidStatusTransition http.ErrInvalidArgument)).1 (Or.inl (by decide)),
   (writeServiceError_status ErrExecutionNotFound).2.1 (by decide) (by decide) (by decide)
      (by decide),
   (writeServiceError_status (.plain "execution with id e1 already exists")).2.2.1
      (by decide) (by decide) (by decide) (by decide),
   (writeServiceError_status ErrExecutionNotFound).2.2.2 sampleRunning
      (.markRunning ⟨250, none⟩) (by decide) (by decide)⟩

/-! ## Properties of the durable consumer loop -/

theorem decodePop_error (json : redisqueue.JSON) (result : List String) (err : Error) :
    redisqueue.decodePop json (result, some err) = none := by
  simp [redisqueue.decodePop]

theorem decodePop_not_pair (json : redisqueue.JSON) (result : List String)
    (h : result.length ≠ 2) : redisqueue.decodePop json (result, none) = none := by
  match result, h with
  | [], _ => rfl
  | [_], _ => rfl
  | [_, _], h => exact absurd rfl h
  | _ :: _ :: _ :: _, _ => rfl

theorem decodePop_malformed (json : redisqueue.JSON) (key value : String)
    (h : (json.Unmarshal value).2 ≠ none) :
    redisqueue.decodePop json ([key, value], none) = none := by
  rcases hu : json.Unmarshal value with ⟨payload, _ | err⟩
  · rw [hu] at h
    exact absurd rfl h
  · simp [redisqueue.decodePop, hu]

theorem decodePop_wellformed (json : redisqueue.JSON) (key value : String)
    (h : (json.Unmarshal value).2 = none) :
    redisqueue.decodePop json ([key, value], none) =
      some
        { ExecutionID := (json.Unmarshal value).1.ExecutionID
          Language := (json.Unmarshal value).1.Language
          UserID := (json.Unmarshal value).1.UserID } := by
  rcases hu : json.Unmarshal value with ⟨payload, _ | err⟩
  · simp [redisqueue.decodePop, hu]
  · rw [hu] at h
    simp at h

theorem scripted_consumeLoop (json : redisqueue.JSON)
    (c : redisqueue.consumer (List (List String × Option Error)))
    (hc : c.client = redisqueue.scriptedClient)
    (ctx : Context) (hctx : ctx.err = none) (fuel : Nat)
    (pops : List (List String × Option Error)) (out : List queue.Job) :
    redisqueue.consumer.consumeLoop json c ctx fuel pops out =
      (pops.drop fuel, out ++ (pops.take fuel).filterMap (redisqueue.decodePop json), false) := by
  induction fuel generalizing pops out with
  | zero => simp [redisqueue.consumer.consumeLoop]
  | succ n ih =>
    rw [redisqueue.consumer.consumeLoop]
    simp only [hctx, ne_eq, not_true_eq_false, if_false]
    match pops with
    | [] =>
      simp only [hc, redisqueue.scriptedClient]
      rw [ih]
      simp
    | (result, some err) :: rest =>
      simp only [hc, redisqueue.scriptedClient]
      rw [ih]
      simp [decodePop_error]
    | (result, none) :: rest =>
      simp only [hc, redisqueue.scriptedClient]
      by_cases hlen : result.length = 2
      · match result, hlen with
        | [k, v], _ =>
          simp only [List.length_cons, List.length_nil, not_true_eq_false, if_false,
            List.getD_cons_succ, List.getD_cons_zero]
          rcases hu : json.Unmarshal v with ⟨payload, _ | err⟩
          · simp only []
            rw [ih]
            have hd := decodePop_wellformed json k v (by rw [hu])
            rw [hu] at hd
            simp [hd]
          · simp only []
            rw [ih]
            have hd := decodePop_malformed json k v (by rw [hu]; simp)
            simp [hd]
      · simp only [hlen, not_false_eq_true, if_true]
        rw [ih]
        simp [decodePop_not_pair json result hlen]

/-! ### C21 -/

/-- C21: for every finite sequence of results popped by the durable consumer
loop under a live context, and every JSON decoding, the jobs handed over on
the output are exactly the jobs decoded from the key/value results with a
well-formed payload, in pop order. A result that came with an error, that is
not a key and a value, or whose payload is malformed adds no job; Consume
returns no error; and the goroutine has not returned, so the results popped
later are still handled. After n turns the first n results have been handled
this way. -/
theorem consumer_skips_malformed (json : redisqueue.JSON) (key : String) (popTimeout : Int)
    (ctx : Context) (pops : List (List String × Option Error)) (fuel : Nat)
    (hctx : ctx.err = none) (hfuel : pops.length ≤ fuel) :
    redisqueue.consumer.Consume json ⟨redisqueue.scriptedClient, key, popTimeout⟩ ctx fuel pops =
      (([], pops.filterMap (redisqueue.decodePop json), false), none) ∧
    (∀ n : Nat,
      redisqueue.consumer.consumeLoop json ⟨redisqueue.scriptedClient, key, popTimeout⟩ ctx n
          pops [] =
        (pops.drop n, (pops.take n).filterMap (redisqueue.decodePop json), false)) ∧
    (∀ (result : List String) (err : Error),
      redisqueue.decodePop json (result, some err) = none) ∧
    (∀ result : List String, result.length ≠ 2 →
      redisqueue.decodePop json (result, none) = none) ∧
    (∀ k v : String, (json.Unmarshal v).2 ≠ none →
      redisqueue.decodePop json ([k, v], none) = none) ∧
    (∀ k v : String, (json.Unmarshal v).2 = none →
      redisqueue.decodePop json ([k, v], none) =
        some
          { ExecutionID := (json.Unmarshal v).1.ExecutionID
            Language := (json.Unmarshal v).1.Language
            UserID := (json.Unmarshal v).1.UserID }) := by
  refine ⟨?_, ?_, decodePop_error json, decodePop_not_pair json, decodePop_malformed json,
    decodePop_wellformed json⟩
  · simp only [redisqueue.consumer.Consume]
    rw [scripted_consumeLoop json _ rfl ctx hctx, List.drop_of_length_le hfuel,
      List.take_of_length_le hfuel]
    simp
  · intro n
    rw [scripted_consumeLoop json _ rfl ctx hctx]
    simp

theorem consumer_skips_malformed_witness :
    redisqueue.consumer.Consume sampleJSON
        ⟨redisqueue.scriptedClient, "queue:executions", 5 * redisqueue.Second⟩
        Context.Background 8 samplePops =
      (([], samplePops.filterMap (redisqueue.decodePop sampleJSON), false), none) ∧
    samplePops.filterMap (redisqueue.decodePop sampleJSON) =
      [⟨"e1", "python", "u1"⟩, ⟨"e2", "", "u2"⟩] :=
  ⟨(consumer_skips_malformed sampleJSON "queue:executions" (5 * redisqueue.Second)
      Context.Background samplePops 8 rfl (by decide)).1,
   by decide⟩

/-! ### C22 -/

/-- C22: a call of MarkRunning, MarkCompleted, MarkFailed or MarkTimedOut with
the zero timestamp, whatever the current status, final statuses and statuses
from which the transition is allowed included, returns an error that is
ErrInvalidExecution and is not ErrInvalidStatusTransition, and leaves every
field of the execution, the status among them, as it was: the timestamp is
checked before the transition. -/
theorem mark_rejects_zero_timestamp (e : Execution) (c : Call) (hz : c.time.IsZero = true) :
    failsWith (c.run e).2 .ErrInvalidExecution = true ∧
    failsWith (c.run e).2 .ErrInvalidStatusTransition = false ∧
    (c.run e).1 = e ∧ (c.run e).1.Status = e.Status := by
  obtain ⟨msg, hm⟩ := run_of_zero e c hz
  rw [hm]
  exact ⟨rfl, rfl, rfl, rfl⟩

theorem mark_rejects_zero_timestamp_witness :
    (failsWith ((Call.markRunning ⟨0, some "CET"⟩).run sampleQueued).2
        .ErrInvalidExecution = true ∧
      failsWith ((Call.markRunning ⟨0, some "CET"⟩).run sampleQueued).2
        .ErrInvalidStatusTransition = false ∧
      ((Call.markRunning ⟨0, some "CET"⟩).run sampleQueued).1 = sampleQueued ∧
      ((Call.markRunning ⟨0, some "CET"⟩).run sampleQueued).1.Status = sampleQueued.Status) ∧
    (failsWith ((Call.markFailed "boom" (some 1) ⟨0, none⟩).run sampleCompleted).2
        .ErrInvalidExecution = true ∧
      failsWith ((Call.markFailed "boom" (some 1) ⟨0, none⟩).run sampleCompleted).2
        .ErrInvalidStatusTransition = false ∧
      ((Call.markFailed "boom" (some 1) ⟨0, none⟩).run sampleCompleted).1 = sampleCompleted ∧
      ((Call.markFailed "boom" (some 1) ⟨0, none⟩).run sampleCompleted).1.Status =
        sampleCompleted.Status) :=
  ⟨mark_rejects_zero_timestamp sampleQueued (.markRunning ⟨0, some "CET"⟩) (by decide),
   mark_rejects_zero_timestamp sampleCompleted (.markFailed "boom" (some 1) ⟨0, none⟩)
     (by decide)⟩

/-! ### C23 -/

/-- C23: CreateExecutionAndEnqueue calls Enqueue only after the execution was
stored. A call with an empty userId fails with ErrInvalidServiceInput; a call
whose id generator fails returns that error wrapped; a call whose parameters
NewExecution rejects (empty generated id, language or code, zero clock value,
timeoutMs not positive) fails with ErrInvalidExecution; a call whose generated
id is already stored fails with the error of CreateExecution. In each of these
the call has one result, with no execution and with the queue and the
repository as they were, whatever the producer is. Every other call stores a
new execution in status queued under an id that was not stored and has the
results of one Enqueue of the job carrying that id. -/
theorem create_enqueues_only_after_persist {Q : Type} (s : service.executionService Q)
    (repo : ExecutionRepository) (q : Q) (ctx : Context)
    (params : service.CreateExecutionParams) :
    (params.UserID = "" →
      ∃ msg, service.CreateExecutionAndEnqueue s repo q ctx params =
        [(repo, q, none, some (.wrap msg service.ErrInvalidServiceInput))]) ∧
    (params.UserID ≠ "" → ∀ (id : String) (gerr : Error),
      s.idGenerator () = (id, some gerr) →
      service.CreateExecutionAndEnqueue s repo q ctx params =
        [(repo, q, none, some (.wrap ("generate execution id: " ++ gerr.errorText) gerr))]) ∧
    (params.UserID ≠ "" → ∀ id : String, s.idGenerator () = (id, none) →
      (id = "" ∨ params.Language = "" ∨ params.Code = "" ∨ (s.now ()).IsZero = true ∨
        params.TimeoutMs ≤ 0) →
      ∃ msg, service.CreateExecutionAndEnqueue s repo q ctx params =
        [(repo, q, none, some (.wrap msg ErrInvalidExecution))]) ∧
    (params.UserID ≠ "" → ∀ id : String, s.idGenerator () = (id, none) →
      id ≠ "" → params.Language ≠ "" → params.Code ≠ "" → (s.now ()).IsZero = false →
      0 < params.TimeoutMs → (repo.store.lookup id).isSome = true →
      service.CreateExecutionAndEnqueue s repo q ctx params =
        [(repo, q, none, some (.plain ("execution with id " ++ id ++ " already exists")))]) ∧
    ((∃ err, service.CreateExecutionAndEnqueue s repo q ctx params =
        [(repo, q, none, some err)]) ∨
      ∃ exec : Execution,
        exec.Status = ExecutionStatusQueued ∧ repo.store.lookup exec.ID = none ∧
        NewExecution exec.ID params.Language params.Code params.Stdin params.TimeoutMs
          params.UserID (s.now ()) = (some exec, none) ∧
        service.CreateExecutionAndEnqueue s repo q ctx params =
          (s.producer.Enqueue q ctx
            { ExecutionID := exec.ID, Language := exec.Language, UserID := exec.UserID }).map
            fun r =>
              ((⟨mapSet repo.store exec.ID (some exec)⟩ : ExecutionRepository), r.1,
                (match r.2 with
                  | some _ => none
                  | none => some exec),
                r.2)) := by
  have ha : params.UserID = "" →
      ∃ msg, service.CreateExecutionAndEnqueue s repo q ctx params =
        [(repo, q, none, some (.wrap msg service.ErrInvalidServiceInput))] := by
    intro hu
    refine ⟨service.ErrInvalidServiceInput.errorText ++ ": user id is required", ?_⟩
    simp [service.CreateExecutionAndEnqueue, hu]
  have hb : params.UserID ≠ "" → ∀ (id : String) (gerr : Error),
      s.idGenerator () = (id, some gerr) →
      service.CreateExecutionAndEnqueue s repo q ctx params =
        [(repo, q, none, some (.wrap ("generate execution id: " ++ gerr.errorText) gerr))] := by
    intro hu id gerr hg
    simp [service.CreateExecutionAndEnqueue, hu, hg]
  have hcc : params.UserID ≠ "" → ∀ id : String, s.idGenerator () = (id, none) →
      (id = "" ∨ params.Language = "" ∨ params.Code = "" ∨ (s.now ()).IsZero = true ∨
        params.TimeoutMs ≤ 0) →
      ∃ msg, service.CreateExecutionAndEnqueue s repo q ctx params =
        [(repo, q, none, some (.wrap msg ErrInvalidExecution))] := by
    intro hu id hg hbad
    obtain ⟨msg, hm⟩ := newExecution_rejected id params.Language params.Code params.Stdin
      params.UserID params.TimeoutMs (s.now ()) (by
        rcases hbad with h | h | h | h | h
        · exact Or.inl h
        · exact Or.inr (Or.inl h)
        · exact Or.inr (Or.inr (Or.inl h))
        · exact Or.inr (Or.inr (Or.inr (Or.inr (Or.inl h))))
        · exact Or.inr (Or.inr (Or.inr (Or.inr (Or.inr h)))))
    exact ⟨msg, by simp [service.CreateExecutionAndEnqueue, hu, hg, hm]⟩
  have hd : params.UserID ≠ "" → ∀ id : String, s.idGenerator () = (id, none) →
      id ≠ "" → params.Language ≠ "" → params.Code ≠ "" → (s.now ()).IsZero = false →
      0 < params.TimeoutMs → (repo.store.lookup id).isSome = true →
      service.CreateExecutionAndEnqueue s repo q ctx params =
        [(repo, q, none, some (.plain ("execution with id " ++ id ++ " already exists")))] := by
    intro hu id hg hid hlang hcode hnow htimeout hstored
    have hnew := newExecution_ok id params.Language params.Code params.Stdin params.UserID
      params.TimeoutMs (s.now ()) hid hlang hcode hu htimeout hnow
    unfold service.CreateExecutionAndEnqueue
    rw [if_neg hu, hg]
    simp [hnew, ExecutionRepository.CreateExecution, hstored]
  refine ⟨ha, hb, hcc, hd, ?_⟩
  by_cases hu : params.UserID = ""
  · obtain ⟨msg, hm⟩ := ha hu
    exact Or.inl ⟨_, hm⟩
  · rcases hg : s.idGenerator () with ⟨id, _ | gerr⟩
    · by_cases hbad : id = "" ∨ params.Language = "" ∨ params.Code = "" ∨
          (s.now ()).IsZero = true ∨ params.TimeoutMs ≤ 0
      · obtain ⟨msg, hm⟩ := hcc hu id hg hbad
        exact Or.inl ⟨_, hm⟩
      · simp only [not_or, not_le, Bool.not_eq_true] at hbad
        obtain ⟨hid, hlang, hcode, hnow, htimeout⟩ := hbad
        by_cases hstored : (repo.store.lookup id).isSome = true
        · exact Or.inl ⟨_, hd hu id hg hid hlang hcode hnow htimeout hstored⟩
        · have hfresh : repo.store.lookup id = none := by
            cases hl : repo.store.lookup id with
            | none => rfl
            | some v =>
              rw [hl] at hstored
              exact absurd rfl hstored
          right
          exact ⟨{ ID := id
                   Language := params.Language
                   Code := params.Code
                   Stdin := params.Stdin
                   TimeoutMs := params.TimeoutMs
                   Status := ExecutionStatusQueued
                   Stdout := ""
                   Stderr := ""
                   ExitCode := none
                   CreatedAt := (s.now ()).UTC
                   StartedAt := none
                   FinishedAt := none
                   UserID := params.UserID }, rfl, hfresh,
            newExecution_ok id params.Language params.Code params.Stdin params.UserID
              params.TimeoutMs (s.now ()) hid hlang hcode hu htimeout hnow,
            createExecutionAndEnqueue_valid s repo q ctx params id hu hlang hcode htimeout hg
              hid hfresh hnow⟩
    · exact Or.inl ⟨_, hb hu id gerr hg⟩

theorem create_enqueues_only_after_persist_witness :
    (∃ msg, service.CreateExecutionAndEnqueue sampleService sampleRepo sampleQueue
        Context.Background { sampleParams with UserID := "" } =
      [(sampleRepo, sampleQueue, none, some (.wrap msg service.ErrInvalidServiceInput))]) ∧
    (∃ msg, service.CreateExecutionAndEnqueue sampleService sampleRepo sampleQueue
        Context.Background { sampleParams with TimeoutMs := 0 } =
      [(sampleRepo, sampleQueue, none, some (.wrap msg ErrInvalidExecution))]) ∧
    service.CreateExecutionAndEnqueue sampleService sampleRepo sampleQueue
        Context.Background sampleParams =
      [(sampleRepo, sampleQueue, none,
        some (.plain ("execution with id " ++ "e1" ++ " already exists")))] :=
  ⟨(create_enqueues_only_after_persist sampleService sampleRepo sampleQueue Context.Background
      { sampleParams with UserID := "" }).1 rfl,
   (create_enqueues_only_after_persist sampleService sampleRepo sampleQueue Context.Background
      { sampleParams with TimeoutMs := 0 }).2.2.1 (by decide) "e1" rfl
      (Or.inr (Or.inr (Or.inr (Or.inr (by decide))))),
   (create_enqueues_only_after_persist sampleService sampleRepo sampleQueue Context.Background
      sampleParams).2.2.2.1 (by decide) "e1" rfl (by decide) (by decide) (by decide) (by decide)
      (by decide) (by decide)⟩

/-! ## Properties of the create handler -/

theorem validate_accepts_iff (req : http.createExecutionRequest) :
    http.validateCreateExecutionRequest req = none ↔
      req.Language ≠ "" ∧ req.Code ≠ "" ∧ 0 < req.TimeoutMs ∧ req.UserName ≠ "" := by
  unfold http.validateCreateExecutionRequest
  by_cases h1 : req.Language = ""
  · simp [h1]
  · by_cases h2 : req.Code = ""
    · simp [h1, h2]
    · by_cases h3 : req.TimeoutMs ≤ 0
      · simp [h1, h2, h3]
      · by_cases h4 : req.UserName = ""
        · simp [h1, h2, h3, h4]
        · simp only [h1, h2, h3, h4, if_false, ne_eq, not_false_eq_true, true_and, true_iff]
          exact ⟨not_le.mp h3, trivial⟩

theorem create_error_sources {Q : Type} (s : service.executionService Q)
    (repo : ExecutionRepository) (q : Q) (ctx : Context)
    (params : service.CreateExecutionParams) (id : String)
    (huser : params.UserID ≠ "") (hlang : params.Language ≠ "") (hcode : params.Code ≠ "")
    (htimeout : 0 < params.TimeoutMs) (hgen : s.idGenerator () = (id, none)) (hid : id ≠ "")
    (hnow : (s.now ()).IsZero = false)
    (out : ExecutionRepository × Q × Option Execution × Option Error)
    (hout : out ∈ service.CreateExecutionAndEnqueue s repo q ctx params) (err : Error)
    (herr : out.2.2.2 = some err) :
    err = .plain ("execution with id " ++ id ++ " already exists") ∨
    ∃ r ∈ s.producer.Enqueue q ctx
        { ExecutionID := id, Language := params.Language, UserID := params.UserID },
      r.2 = some err := by
  cases hl : repo.store.lookup id with
  | some v =>
    have hnew := newExecution_ok id params.Language params.Code params.Stdin params.UserID
      params.TimeoutMs (s.now ()) hid hlang hcode huser htimeout hnow
    unfold service.CreateExecutionAndEnqueue at hout
    rw [if_neg huser, hgen] at hout
    simp only [hnew, ExecutionRepository.CreateExecution, hl, Option.isSome_some, if_true,
      List.mem_singleton] at hout
    rw [hout] at herr
    simp only [Option.some.injEq] at herr
    exact Or.inl herr.symm
  | none =>
    rw [createExecutionAndEnqueue_valid s repo q ctx params id huser hlang hcode htimeout hgen
      hid hl hnow, List.mem_map] at hout
    obtain ⟨r, hr, rfl⟩ := hout
    exact Or.inr ⟨r, hr, herr⟩

theorem inMemory_enqueue_error (q : InMemoryQueue) (ctx : Context) (job : queue.Job)
    (r : InMemoryQueue × Option Error) (hr : r ∈ q.Enqueue ctx job) (err : Error)
    (herr : r.2 = some err) (hid : job.ExecutionID ≠ "") : ctx.err = some err := by
  unfold InMemoryQueue.Enqueue at hr
  rw [if_neg hid, List.mem_append] at hr
  rcases hr with hr | hr
  · by_cases hd : ctx.Done = true
    · simp only [hd, if_true, List.mem_singleton] at hr
      rw [hr] at herr
      exact herr
    · simp [hd] at hr
  · by_cases hc : q.ch.length < q.cap
    · simp only [hc, if_true, List.mem_singleton] at hr
      rw [hr] at herr
      simp at herr
    · simp [hc] at hr

/-! ### C24 -/

/-- C24: the HTTP validation is at least as strict as the domain construction.
A request accepted by validateCreateExecutionRequest has a non-empty language,
code and user_name and a positive timeout_ms; the params the handler builds
from it (UserID taken from user_name) pass the userId check of the service, and
NewExecution accepts them for every non-empty id and every non-zero creation
time. So when the id generator returns a non-empty id without error and the
clock a non-zero time, an error of CreateExecutionAndEnqueue for these params is
the already-exists error of the repository or an error returned by the
producer's Enqueue, never one of the service's or the domain's own validation;
over the in-memory queue, with a context that is live, cancelled or past its
deadline, no result fails with ErrInvalidServiceInput or ErrInvalidExecution. -/
theorem http_validation_implies_domain (req : http.createExecutionRequest)
    (hv : http.validateCreateExecutionRequest req = none) :
    (req.Language ≠ "" ∧ req.Code ≠ "" ∧ 0 < req.TimeoutMs ∧ req.UserName ≠ "") ∧
    (http.createExecutionParams req).UserID = req.UserName ∧
    (http.createExecutionParams req).UserID ≠ "" ∧
    (∀ (id : String) (t : Time), id ≠ "" → t.IsZero = false →
      ∃ exec : Execution,
        NewExecution id (http.createExecutionParams req).Language
          (http.createExecutionParams req).Code (http.createExecutionParams req).Stdin
          (http.createExecutionParams req).TimeoutMs (http.createExecutionParams req).UserID t =
          (some exec, none) ∧
        exec.Status = ExecutionStatusQueued) ∧
    (∀ (Q : Type) (s : service.executionService Q) (repo : ExecutionRepository) (q : Q)
      (ctx : Context) (id : String),
      s.idGenerator () = (id, none) → id ≠ "" → (s.now ()).IsZero = false →
      ∀ out ∈ service.CreateExecutionAndEnqueue s repo q ctx (http.createExecutionParams req),
        ∀ err : Error, out.2.2.2 = some err →
          err = .plain ("execution with id " ++ id ++ " already exists") ∨
          ∃ r ∈ s.producer.Enqueue q ctx
              { ExecutionID := id
                Language := (http.createExecutionParams req).Language
                UserID := (http.createExecutionParams req).UserID },
            r.2 = some err) ∧
    (∀ (s : service.executionService InMemoryQueue) (repo : ExecutionRepository)
      (q : InMemoryQueue) (ctx : Context) (id : String),
      s.producer = InMemoryQueue.asProducer →
      s.idGenerator () = (id, none) → id ≠ "" → (s.now ()).IsZero = false →
      (ctx.err = none ∨ ctx.err = some (.sentinel .contextCanceled) ∨
        ctx.err = some (.sentinel .contextDeadlineExceeded)) →
      ∀ out ∈ service.CreateExecutionAndEnqueue s repo q ctx (http.createExecutionParams req),
        failsWith out.2.2.2 .ErrInvalidServiceInput = false ∧
        failsWith out.2.2.2 .ErrInvalidExecution = false) := by
  have hreq := (validate_accepts_iff req).mp hv
  obtain ⟨hlang, hcode, htimeout, huser⟩ := hreq
  refine ⟨⟨hlang, hcode, htimeout, huser⟩, rfl, huser, ?_, ?_, ?_⟩
  · intro id t hid ht
    exact ⟨_, newExecution_ok id req.Language req.Code req.Stdin req.UserName req.TimeoutMs t
      hid hlang hcode huser htimeout ht, rfl⟩
  · intro Q s repo q ctx id hgen hid hnow out hout err herr
    exact create_error_sources s repo q ctx (http.createExecutionParams req) id huser hlang
      hcode htimeout hgen hid hnow out hout err herr
  · intro s repo q ctx id hprod hgen hid hnow hctx out hout
    cases herr : out.2.2.2 with
    | none => exact ⟨rfl, rfl⟩
    | some err =>
      rcases create_error_sources s repo q ctx (http.createExecutionParams req) id huser hlang
        hcode htimeout hgen hid hnow out hout err herr with h | ⟨r, hr, hre⟩
      · rw [h]
        exact ⟨rfl, rfl⟩
      · rw [hprod] at hr
        have hce := inMemory_enqueue_error q ctx _ r hr err hre hid
        rcases hctx with hc | hc | hc
        · rw [hc] at hce
          exact absurd hce (by simp)
        · rw [hc] at hce
          simp only [Option.some.injEq] at hce
          rw [← hce]
          exact ⟨rfl, rfl⟩
        · rw [hc] at hce
          simp only [Option.some.injEq] at hce
          rw [← hce]
          exact ⟨rfl, rfl⟩

theorem http_validation_implies_domain_witness :
    http.validateCreateExecutionRequest sampleRequest = none ∧
    http.createExecutionParams sampleRequest = sampleParams ∧
    (∃ exec : Execution,
      NewExecution "e1" (http.createExecutionParams sampleRequest).Language
        (http.createExecutionParams sampleRequest).Code
        (http.createExecutionParams sampleRequest).Stdin
        (http.createExecutionParams sampleRequest).TimeoutMs
        (http.createExecutionParams sampleRequest).UserID ⟨100, none⟩ = (some exec, none) ∧
      exec.Status = ExecutionStatusQueued) ∧
    (∀ out ∈ service.CreateExecutionAndEnqueue sampleService sampleRepo sampleFullQueue
        sampleCancelled (http.createExecutionParams sampleRequest),
      failsWith out.2.2.2 .ErrInvalidServiceInput = false ∧
      failsWith out.2.2.2 .ErrInvalidExecution = false) :=
  ⟨by decide, by decide,
   (http_validation_implies_domain sampleRequest (by decide)).2.2.2.1 "e1" ⟨100, none⟩
     (by decide) (by decide),
   (http_validation_implies_domain sampleRequest (by decide)).2.2.2.2.2 sampleService sampleRepo
     sampleFullQueue sampleCancelled "e1" rfl rfl (by decide) (by decide)
     (Or.inr (Or.inl rfl))⟩

end CodeExecutor
